import Mathlib

/-!
Verification of the SeqArray merge and retrieval engine
(`src/FileMerge.cpp`, `src/GetData.cpp`) against its natural-language
specification.  The C++ code is shallowly embedded: C strings become
`List Char`, R integer vectors become `List Int` with the R missing
value `NA_INTEGER = -2^31`, and fallible code returns `Except String`.
-/

namespace SeqArray

/-- The R missing-value sentinel for 32-bit integers (`INT_MIN`). -/
def NA_INTEGER : Int := -(2 ^ 31)

/-- Modelled from the spec: `GetAlleles` (declared outside `src/`) parses a
comma-separated allele list into its ordered components
("collect each contributing file's comma-separated allele list, parse into
ordered components"). -/
def GetAlleles (s : List Char) : List (List Char) := s.splitOn ','

/-- Modelled from the spec: `GetNumOfAllele` (declared outside `src/`) counts
the comma-separated components of an allele list. -/
def GetNumOfAllele (s : List Char) : Nat := (GetAlleles s).length

/-- Comma-join of allele components, mirroring the save loop at
`FileMerge.cpp:96-101` (`ss.push_back(','); ss.append(vec[j])`). -/
def joinAlleles (vs : List (List Char)) : List Char := [','].intercalate vs

-- ===========================================================
-- SEQ_MergeGeno: plane count (FileMerge.cpp:201-209)
-- ===========================================================

/-- The `while ((num_allele + 1) > (1 << num_bits)) num_bits += GenoNumBits;`
loop of `FileMerge.cpp:206-207` (`GenoNumBits = 2`). -/
def numBitsAux (num_allele : Nat) (num_bits : Nat) : Nat :=
  if num_allele + 1 > 1 <<< num_bits then numBitsAux num_allele (num_bits + 2)
  else num_bits
termination_by num_allele + 1 - 2 ^ num_bits
decreasing_by
  have hpow : 2 ^ num_bits < 2 ^ (num_bits + 2) :=
    Nat.pow_lt_pow_right (by norm_num) (by omega)
  simp only [Nat.shiftLeft_eq, one_mul] at *
  omega

/-- `num_bits` for a record, starting from `GenoNumBits = 2`
(`FileMerge.cpp:205`). -/
def numBits (num_allele : Nat) : Nat := numBitsAux num_allele 2

theorem numBitsAux_even (na nb : Nat) (h : nb % 2 = 0) :
    numBitsAux na nb % 2 = 0 := by
  rw [numBitsAux]
  split
  · exact numBitsAux_even na (nb + 2) (by omega)
  · exact h
termination_by na + 1 - 2 ^ nb
decreasing_by
  have hpow : 2 ^ nb < 2 ^ (nb + 2) :=
    Nat.pow_lt_pow_right (by norm_num) (by omega)
  simp only [Nat.shiftLeft_eq, one_mul] at *
  omega

theorem numBitsAux_ge (na nb : Nat) : na + 1 ≤ 2 ^ numBitsAux na nb := by
  rw [numBitsAux]
  split
  · exact numBitsAux_ge na (nb + 2)
  · rename_i hnot
    rw [Nat.shiftLeft_eq, one_mul] at hnot
    omega
termination_by na + 1 - 2 ^ nb
decreasing_by
  have hpow : 2 ^ nb < 2 ^ (nb + 2) :=
    Nat.pow_lt_pow_right (by norm_num) (by omega)
  simp only [Nat.shiftLeft_eq, one_mul] at *
  omega

theorem numBitsAux_le (na nb : Nat) (k : Nat) (hk : nb ≤ k) (h2 : k % 2 = nb % 2)
    (hge : na + 1 ≤ 2 ^ k) : numBitsAux na nb ≤ k := by
  rw [numBitsAux]
  split
  · rename_i hlt
    rw [Nat.shiftLeft_eq, one_mul] at hlt
    have hne : nb ≠ k := by
      rintro rfl; omega
    have : nb + 2 ≤ k := by omega
    exact numBitsAux_le na (nb + 2) k this (by omega) hge
  · exact hk
termination_by na + 1 - 2 ^ nb
decreasing_by
  have hpow : 2 ^ nb < 2 ^ (nb + 2) :=
    Nat.pow_lt_pow_right (by norm_num) (by omega)
  simp only [Nat.shiftLeft_eq, one_mul] at *
  omega

theorem numBitsAux_start_le (na nb : Nat) : nb ≤ numBitsAux na nb := by
  rw [numBitsAux]
  split
  · have := numBitsAux_start_le na (nb + 2)
    omega
  · omega
termination_by na + 1 - 2 ^ nb
decreasing_by
  have hpow : 2 ^ nb < 2 ^ (nb + 2) :=
    Nat.pow_lt_pow_right (by norm_num) (by omega)
  simp only [Nat.shiftLeft_eq, one_mul] at *
  omega

theorem numBits_min (na : Nat) :
    1 ≤ numBits na / 2 ∧ na + 1 ≤ 2 ^ (2 * (numBits na / 2)) ∧
      ∀ Q, 1 ≤ Q → na + 1 ≤ 2 ^ (2 * Q) → numBits na / 2 ≤ Q := by
  have hev : numBits na % 2 = 0 := numBitsAux_even na 2 rfl
  have hge : na + 1 ≤ 2 ^ numBits na := numBitsAux_ge na 2
  have h2 : 2 ≤ numBits na := numBitsAux_start_le na 2
  refine ⟨by omega, ?_, ?_⟩
  · have : 2 * (numBits na / 2) = numBits na := by omega
    rw [this]; exact hge
  · intro Q hQ hQge
    have := numBitsAux_le na 2 (2 * Q) (by omega) (by omega) hQge
    unfold numBits
    omega

-- ===========================================================
-- SEQ_MergeGeno: allele remap and plane emission (FileMerge.cpp:157-223)
-- ===========================================================

/-- Modelled from the spec: `GetIndexOfAllele` (declared outside `src/`)
locates a local allele among the comma-separated components of the unified
allele string ("locating each local allele substring inside the unified
allele string"), returning its 0-based component index, or `-1` when
absent. -/
def GetIndexOfAllele (s : List Char) (list : List Char) : Int :=
  match (GetAlleles list).indexOf? s with
  | some k => (k : Int)
  | none => -1

/-- The translation-table loop of `FileMerge.cpp:176-183`: for every local
allele component, find it in the unified allele string; a miss
(`x < 0`) raises the internal error. -/
def buildAlleleMap (ss : List (List Char)) (allele_list : List Char) :
    Except String (List Int) :=
  match ss with
  | [] => .ok []
  | a :: rest =>
    let x := GetIndexOfAllele a allele_list
    if x < 0 then .error "internal error in SEQ_MergeGeno"
    else (buildAlleleMap rest allele_list).map (fun m => x :: m)

/-- The replacement loop of `FileMerge.cpp:187-195`: codes in
`[0, nAllele)` go through the translation table, the missing value is kept,
and any other code produces a warning and is kept unmapped.
Returns the rewritten buffer together with the emitted warnings. -/
def remapCodes (map : List Int) (nAllele : Nat) (fileno : Nat) :
    List Int → List Int × List String
  | [] => ([], [])
  | c :: rest =>
    let r := remapCodes map nAllele fileno rest
    if 0 ≤ c ∧ c < (nAllele : Int) then (map.getD c.toNat 0 :: r.1, r.2)
    else if c ≠ NA_INTEGER then
      (c :: r.1, s!"Genotype in File({fileno}), out of range." :: r.2)
    else (c :: r.1, r.2)

/-- One source file's state for one global record in `SEQ_MergeGeno`:
`contrib = some (s, codes)` when the file's merge-index cursor maps to this
record (`s` its local allele string, `codes` its genotype buffer of
`Num_Sample * ploidy` ints), `none` otherwise; `size` is
`Num_Sample * ploidy`. -/
structure GenoFile where
  contrib : Option (List Char × List Int)
  size : Nat
deriving DecidableEq

/-- One file's slice of the per-record genotype buffer
(`FileMerge.cpp:163-199`): a contributing file parses its local alleles,
builds the translation table (which can fail) and remaps its codes; a
non-contributing file's slots are filled with the missing value
(`vec_int32_set(pGeno, size, NA_INTEGER)`). -/
def genoFileSlot (allele_list : List Char) (fileno : Nat) (f : GenoFile) :
    Except String (List Int × List String) :=
  match f.contrib with
  | some (s, codes) =>
    let ss := GetAlleles s
    (buildAlleleMap ss allele_list).map (fun m =>
      remapCodes m ss.length fileno codes)
  | none => .ok (List.replicate f.size NA_INTEGER, [])

/-- Concatenation of all files' buffer slices, in file order
(`pGeno += size`), accumulating warnings; `fileno` is the 1-based file
number used in warning messages (`j+1`). -/
def genoSlots (allele_list : List Char) (fileno : Nat) :
    List GenoFile → Except String (List Int × List String)
  | [] => .ok ([], [])
  | f :: fs => do
    let r ← genoFileSlot allele_list fileno f
    let rs ← genoSlots allele_list (fileno + 1) fs
    .ok (r.1 ++ rs.1, r.2 ++ rs.2)

/-- One emitted 2-bit plane (`FileMerge.cpp:216-221`):
`(*p == NA_INTEGER) ? 0x03 : ((*p >> bits) & 0x03)`.  For the nonnegative
codes this program stores, the C shift-and-mask equals floor division by
`2 ^ bits` followed by `% 4`, which is how it is written here. -/
def genoPlane (buf : List Int) (bits : Nat) : List Int :=
  buf.map (fun c => if c = NA_INTEGER then 3 else (c / 2 ^ bits) % 4)

/-- The plane loop of `FileMerge.cpp:212-223`: planes for
`bits = 0, 2, …, num_bits-2`, low bits first, each spanning the whole
record×sample×ploidy buffer. -/
def packPlanes (num_bits : Nat) (buf : List Int) : List (List Int) :=
  (List.range (num_bits / 2)).map (fun b => genoPlane buf (2 * b))

/-- One global record of `SEQ_MergeGeno` (`FileMerge.cpp:157-223`): build the
full genotype buffer across files, compute the plane count from the unified
allele string, and emit the record's plane-count entry (`geno_idx`) and its
2-bit planes. -/
def mergeGenoRecord (allele_list : List Char) (files : List GenoFile) :
    Except String (Nat × List (List Int) × List String) := do
  let r ← genoSlots allele_list 1 files
  let nb := numBits (GetNumOfAllele allele_list)
  .ok (nb / 2, packPlanes nb r.1, r.2)

/-- Little-endian base-4 combination of one buffer position's plane values. -/
def combinePlanes : List Int → Int
  | [] => 0
  | x :: xs => x + 4 * combinePlanes xs

/-- Modelled from the spec: unpacking `P` sequential 2-bit planes (plane `b`
holds bits `2b..2b+1`, low bits first); a position whose combined value is
the all-ones pattern `4^P - 1` decodes to the missing sentinel. -/
def unpackPlanes (P : Nat) (planes : List (List Int)) (n : Nat) : List Int :=
  (List.range n).map (fun k =>
    let v := combinePlanes (planes.map (fun pl => pl.getD k 0))
    if v = 4 ^ P - 1 then NA_INTEGER else v)

theorem mod_four_pow_succ (m P : Nat) :
    m % (4 * 4 ^ P) = m % 4 + 4 * (m / 4 % 4 ^ P) := by
  have h1 := Nat.mod_mul_right_div_self m 4 (4 ^ P)
  have h2 := Nat.mod_mul_right_mod m 4 (4 ^ P)
  have h3 := Nat.div_add_mod (m % (4 * 4 ^ P)) 4
  omega

theorem combinePlanes_digits (P : Nat) : ∀ m : Nat,
    combinePlanes ((List.range P).map (fun b => ((m / 4 ^ b % 4 : Nat) : Int))) =
      ((m % 4 ^ P : Nat) : Int) := by
  induction P with
  | zero => simp [combinePlanes]
  | succ P ih =>
    intro m
    rw [List.range_succ_eq_map]
    simp only [List.map_cons, List.map_map, combinePlanes]
    have hmap : (List.range P).map
          ((fun b => ((m / 4 ^ b % 4 : Nat) : Int)) ∘ Nat.succ) =
        (List.range P).map (fun b => ((m / 4 / 4 ^ b % 4 : Nat) : Int)) := by
      apply List.map_congr_left
      intro b _
      simp only [Function.comp]
      rw [Nat.div_div_eq_div_mul, ← pow_succ']
    rw [hmap, ih (m / 4)]
    have hnat : m / 4 ^ 0 % 4 + 4 * (m / 4 % 4 ^ P) = m % 4 ^ (P + 1) := by
      have hdec := mod_four_pow_succ m P
      have h4 : (4 : Nat) ^ (P + 1) = 4 * 4 ^ P := by rw [pow_succ']
      rw [h4]
      simp only [pow_zero, Nat.div_one]
      omega
    exact_mod_cast hnat

theorem combinePlanes_ones (P : Nat) :
    combinePlanes ((List.range P).map (fun _ => (3 : Int))) = 4 ^ P - 1 := by
  induction P with
  | zero => simp [combinePlanes]
  | succ P ih =>
    rw [List.range_succ_eq_map]
    simp only [List.map_cons, List.map_map, combinePlanes]
    have : (List.range P).map ((fun _ => (3 : Int)) ∘ Nat.succ) =
        (List.range P).map (fun _ => (3 : Int)) := rfl
    rw [this, ih]
    ring

/-- The packed planes of a buffer of valid codes unpack pointwise. -/
theorem unpack_packPlanes (na : Nat) (buf : List Int)
    (hb : ∀ c ∈ buf, c = NA_INTEGER ∨ 0 ≤ c ∧ c < (na : Int)) :
    unpackPlanes (numBits na / 2) (packPlanes (numBits na) buf) buf.length
      = buf := by
  have hev : numBits na % 2 = 0 := numBitsAux_even na 2 rfl
  have hge : na + 1 ≤ 2 ^ numBits na := numBitsAux_ge na 2
  set nb := numBits na with hnb
  set P := nb / 2 with hP
  have h2P : 2 * P = nb := by omega
  have h4P : (4 : Nat) ^ P = 2 ^ nb := by
    rw [← h2P, pow_mul]; norm_num
  apply List.ext_getElem
  · simp [unpackPlanes]
  intro k hk hk2
  simp only [unpackPlanes, packPlanes, List.getElem_map, List.getElem_range,
    List.map_map]
  have hklt : k < buf.length := by
    simpa [unpackPlanes] using hk
  have hgetD : ∀ b : Nat, ((genoPlane buf (2 * b)).getD k 0) =
      (if buf[k] = NA_INTEGER then 3 else (buf[k] / 2 ^ (2 * b)) % 4) := by
    intro b
    have hlen : k < (genoPlane buf (2 * b)).length := by
      simpa [genoPlane] using hklt
    rw [List.getD_eq_getElem _ _ hlen]
    simp [genoPlane]
  rcases hb buf[k] (List.getElem_mem hklt) with hNA | ⟨hge0, hlt⟩
  · -- missing value: every plane holds the all-ones pattern
    have hmap : (List.range P).map
          (fun b => (genoPlane buf (2 * b)).getD k 0) =
        (List.range P).map (fun _ => (3 : Int)) := by
      apply List.map_congr_left
      intro b _
      rw [hgetD b, if_pos hNA]
    simp only [Function.comp_def]
    rw [hmap, combinePlanes_ones, if_pos rfl, hNA]
  · -- genuine code in [0, na)
    obtain ⟨m, hm⟩ := Int.eq_ofNat_of_zero_le hge0
    rw [hm] at hgetD hlt ⊢
    have hmNA : (m : Int) ≠ NA_INTEGER := by
      unfold NA_INTEGER
      omega
    have hmna : m < na := by exact_mod_cast hlt
    have hmap : (List.range P).map
          (fun b => (genoPlane buf (2 * b)).getD k 0) =
        (List.range P).map (fun b => ((m / 4 ^ b % 4 : Nat) : Int)) := by
      apply List.map_congr_left
      intro b _
      rw [hgetD b, if_neg hmNA]
      have h2b : (2 : Nat) ^ (2 * b) = 4 ^ b := by
        rw [pow_mul]; norm_num
      rw [← h2b]
      push_cast
      rfl
    simp only [Function.comp_def]
    rw [hmap, combinePlanes_digits]
    have hm4P : m < 4 ^ P := by omega
    have hmlt' : m + 1 < 4 ^ P := by omega
    rw [Nat.mod_eq_of_lt hm4P]
    have hne : ((m : Int)) ≠ 4 ^ P - 1 := by
      have h44 : ((4 : Int) ^ P) = ((4 ^ P : Nat) : Int) := by push_cast; ring
      rw [h44]
      omega
    rw [if_neg hne]

/-- **C2**: for every global record whose unified allele string has
`num_alleles` alleles (`num_alleles ≥ 1`), `SEQ_MergeGeno` appends to the
companion per-record index (`geno_idx`) exactly the minimum plane count
`P ≥ 1` satisfying `2^(2P) ≥ num_alleles + 1`; in particular for
`num_alleles ∈ {1,2,3,4,5}` the recorded `P` is `1,1,1,2,2`. -/
theorem seq_mergeGeno_plane_count (al : List Char) (files : List GenoFile)
    (P : Nat) (planes : List (List Int)) (warns : List String)
    (_hna1 : 1 ≤ GetNumOfAllele al)
    (h : mergeGenoRecord al files = .ok (P, planes, warns)) :
    (1 ≤ P ∧ GetNumOfAllele al + 1 ≤ 2 ^ (2 * P) ∧
      ∀ Q, 1 ≤ Q → GetNumOfAllele al + 1 ≤ 2 ^ (2 * Q) → P ≤ Q) ∧
    (GetNumOfAllele al = 1 → P = 1) ∧ (GetNumOfAllele al = 2 → P = 1) ∧
    (GetNumOfAllele al = 3 → P = 1) ∧ (GetNumOfAllele al = 4 → P = 2) ∧
    (GetNumOfAllele al = 5 → P = 2) := by
  have hP : P = numBits (GetNumOfAllele al) / 2 := by
    cases hs : genoSlots al 1 files with
    | error e => simp [mergeGenoRecord, hs, bind, Except.bind] at h
    | ok r =>
      simp [mergeGenoRecord, hs, bind, Except.bind] at h
      exact h.1.symm
  subst hP
  refine ⟨numBits_min _, ?_, ?_, ?_, ?_, ?_⟩ <;>
    (intro hna; rw [hna]; simp [numBits, numBitsAux])

/-- Witness for C2 at the single-allele string `"A"` with no source files. -/
theorem seq_mergeGeno_plane_count_witness :
    (1 ≤ GetNumOfAllele ['A'] ∧
      mergeGenoRecord ['A'] [] = .ok (1, [[]], [])) ∧ 1 ≤ (1 : Nat) := by
  have h1 : GetNumOfAllele ['A'] = 1 := by decide
  have h2 : mergeGenoRecord ['A'] [] = .ok (1, [[]], []) := by
    simp [mergeGenoRecord, genoSlots, h1, numBits, numBitsAux, packPlanes,
      genoPlane, bind, Except.bind]
  exact ⟨⟨by decide, h2⟩,
    (seq_mergeGeno_plane_count ['A'] [] 1 [[]] [] (by decide) h2).1.1⟩

/-- **C3**: for every per-record genotype buffer (entries either the missing
value or a code in `[0, num_alleles)`) and the recorded plane count `P`, the
`P` sequential 2-bit planes `SEQ_MergeGeno` emits (plane `b` holding bits
`2b..2b+1`, low bits first, all-ones for a missing code) unpack by the same
`P` back to exactly the original codes, including the missing sentinel, for
all `num_alleles ∈ {1,2,3,4,5,16,17}`. -/
theorem seq_mergeGeno_roundtrip (al : List Char) (files : List GenoFile)
    (buf : List Int) (warns : List String)
    (hs : genoSlots al 1 files = .ok (buf, warns))
    (P : Nat) (planes : List (List Int)) (warns' : List String)
    (h : mergeGenoRecord al files = .ok (P, planes, warns'))
    (_hna : GetNumOfAllele al ∈ ([1, 2, 3, 4, 5, 16, 17] : List Nat))
    (hb : ∀ c ∈ buf, c = NA_INTEGER ∨ 0 ≤ c ∧ c < (GetNumOfAllele al : Int)) :
    unpackPlanes P planes buf.length = buf := by
  have hPp : P = numBits (GetNumOfAllele al) / 2 ∧
      planes = packPlanes (numBits (GetNumOfAllele al)) buf := by
    simp [mergeGenoRecord, hs, bind, Except.bind] at h
    exact ⟨h.1.symm, h.2.1.symm⟩
  rw [hPp.1, hPp.2]
  exact unpack_packPlanes (GetNumOfAllele al) buf hb

instance {e a : Type} [DecidableEq e] [DecidableEq a] :
    DecidableEq (Except e a) := fun x y =>
  match x, y with
  | .ok u, .ok v => decidable_of_iff (u = v) (by simp)
  | .error u, .error v => decidable_of_iff (u = v) (by simp)
  | .ok _, .error _ => isFalse (fun h => Except.noConfusion h)
  | .error _, .ok _ => isFalse (fun h => Except.noConfusion h)

/-- Witness for C3 at the two-allele record `"A,C"` with one contributing
file holding codes `0, 1, NA, 1`. -/
theorem seq_mergeGeno_roundtrip_witness :
    (genoSlots (['A', ',', 'C']) 1
        [⟨some (['A', ',', 'C'], [0, 1, NA_INTEGER, 1]), 4⟩] =
      .ok ([0, 1, NA_INTEGER, 1], [])) ∧
    (mergeGenoRecord (['A', ',', 'C'])
        [⟨some (['A', ',', 'C'], [0, 1, NA_INTEGER, 1]), 4⟩] =
      .ok (1, [[0, 1, 3, 1]], [])) ∧
    (GetNumOfAllele ['A', ',', 'C'] ∈ ([1, 2, 3, 4, 5, 16, 17] : List Nat)) ∧
    (∀ c ∈ ([0, 1, NA_INTEGER, 1] : List Int),
      c = NA_INTEGER ∨ 0 ≤ c ∧ c < (GetNumOfAllele ['A', ',', 'C'] : Int)) ∧
    unpackPlanes 1 [[0, 1, 3, 1]] 4 = [0, 1, NA_INTEGER, 1] := by
  have hg : genoSlots (['A', ',', 'C']) 1
      [⟨some (['A', ',', 'C'], [0, 1, NA_INTEGER, 1]), 4⟩] =
      .ok ([0, 1, NA_INTEGER, 1], []) := by decide
  have hna : GetNumOfAllele ['A', ',', 'C'] = 2 := by decide
  have hnb : numBits 2 = 2 := by simp [numBits, numBitsAux]
  have hpk : packPlanes 2 [0, 1, NA_INTEGER, 1] = [[0, 1, 3, 1]] := by decide
  have hm : mergeGenoRecord (['A', ',', 'C'])
      [⟨some (['A', ',', 'C'], [0, 1, NA_INTEGER, 1]), 4⟩] =
      .ok (1, [[0, 1, 3, 1]], []) := by
    simp [mergeGenoRecord, hg, bind, Except.bind, hna, hnb, hpk]
  have hlen : ([0, 1, NA_INTEGER, 1] : List Int).length = 4 := by decide
  refine ⟨hg, hm, by decide, by decide, ?_⟩
  have := seq_mergeGeno_roundtrip (['A', ',', 'C'])
    [⟨some (['A', ',', 'C'], [0, 1, NA_INTEGER, 1]), 4⟩]
    [0, 1, NA_INTEGER, 1] [] hg 1 [[0, 1, 3, 1]] [] hm (by decide) (by decide)
  rw [hlen] at this
  exact this

-- ===========================================================
-- C4: failure semantics of the genotype remap (FileMerge.cpp:174-195)
-- ===========================================================

theorem buildAlleleMap_error_msg (ss : List (List Char)) (al : List Char) :
    ∀ e : String, buildAlleleMap ss al = .error e →
      e = "internal error in SEQ_MergeGeno" := by
  induction ss with
  | nil =>
    intro e h
    simp [buildAlleleMap] at h
  | cons a rest ih =>
    intro e h
    simp only [buildAlleleMap] at h
    split at h
    · simp at h
      exact h.symm
    · cases hb : buildAlleleMap rest al with
      | error e' =>
        rw [hb] at h
        simp [Except.map] at h
        rw [← h]
        exact ih e' hb
      | ok m =>
        rw [hb] at h
        simp [Except.map] at h

theorem buildAlleleMap_error_of_missing (ss : List (List Char)) (al : List Char)
    (h : ∃ a ∈ ss, a ∉ GetAlleles al) :
    buildAlleleMap ss al = .error "internal error in SEQ_MergeGeno" := by
  induction ss with
  | nil => simp at h
  | cons a rest ih =>
    simp only [buildAlleleMap]
    rcases h with ⟨b, hb, hbmem⟩
    rcases List.mem_cons.mp hb with rfl | hbrest
    · have hidx : (GetAlleles al).indexOf? b = none :=
        List.indexOf?_eq_none_iff.mpr
          (fun x hx hbeq => hbmem (beq_iff_eq.mp hbeq ▸ hx))
      simp [GetIndexOfAllele, hidx]
    · split
      · rfl
      · rw [ih ⟨b, hbrest, hbmem⟩]
        rfl

theorem buildAlleleMap_ok_of_found (ss : List (List Char)) (al : List Char)
    (h : ∀ a ∈ ss, a ∈ GetAlleles al) :
    ∃ m, buildAlleleMap ss al = .ok m := by
  induction ss with
  | nil => exact ⟨[], rfl⟩
  | cons a rest ih =>
    have ha : a ∈ GetAlleles al := h a (List.mem_cons_self a rest)
    have hidx : ∃ k, (GetAlleles al).indexOf? a = some k := by
      cases hi : (GetAlleles al).indexOf? a with
      | none =>
        exact absurd ha (fun hmem =>
          absurd (beq_iff_eq.mpr rfl)
            (List.indexOf?_eq_none_iff.mp hi a hmem))
      | some k => exact ⟨k, rfl⟩
    obtain ⟨k, hk⟩ := hidx
    obtain ⟨m, hm⟩ := ih (fun b hb => h b (List.mem_cons_of_mem a hb))
    refine ⟨(k : Int) :: m, ?_⟩
    simp only [buildAlleleMap, GetIndexOfAllele, hk, hm]
    rw [if_neg (by omega)]
    rfl

/-- Closed form of the replacement loop: in-range codes are translated, all
other codes (missing or out-of-range) pass through unchanged, and exactly one
warning is emitted per out-of-range non-missing code. -/
theorem remapCodes_eq (map : List Int) (nA : Nat) (j : Nat) (codes : List Int) :
    remapCodes map nA j codes =
      (codes.map (fun c =>
          if 0 ≤ c ∧ c < (nA : Int) then map.getD c.toNat 0 else c),
        (codes.filter (fun c =>
            decide (¬(0 ≤ c ∧ c < (nA : Int)) ∧ c ≠ NA_INTEGER))).map
          (fun _ => s!"Genotype in File({j}), out of range.")) := by
  induction codes with
  | nil => rfl
  | cons c rest ih =>
    simp only [remapCodes, ih, List.map_cons, List.filter_cons]
    by_cases h1 : 0 ≤ c ∧ c < (nA : Int)
    · have hp : decide (¬(0 ≤ c ∧ c < (nA : Int)) ∧ c ≠ NA_INTEGER) = false := by
        simp [h1]
      simp only [if_pos h1, hp, Bool.false_eq_true, if_false]
    · by_cases h2 : c = NA_INTEGER
      · have hne : ¬(c ≠ NA_INTEGER) := by simpa using h2
        have hp : decide (¬(0 ≤ c ∧ c < (nA : Int)) ∧ c ≠ NA_INTEGER) = false := by
          simp [h2]
        simp only [if_neg h1, if_neg hne, hp, Bool.false_eq_true, if_false]
      · have hp : decide (¬(0 ≤ c ∧ c < (nA : Int)) ∧ c ≠ NA_INTEGER) = true := by
          simp [h1, h2]
        simp only [if_neg h1, if_pos h2, hp, if_true, List.map_cons]

theorem genoFileSlot_error_msg (al : List Char) (n : Nat) (f : GenoFile)
    (e : String) (h : genoFileSlot al n f = .error e) :
    e = "internal error in SEQ_MergeGeno" := by
  cases hc : f.contrib with
  | none => simp [genoFileSlot, hc] at h
  | some sc =>
    obtain ⟨s, codes⟩ := sc
    simp only [genoFileSlot, hc] at h
    cases hb : buildAlleleMap (GetAlleles s) al with
    | error e' =>
      rw [hb] at h
      simp [Except.map] at h
      rw [← h]
      exact buildAlleleMap_error_msg _ _ _ hb
    | ok m =>
      rw [hb] at h
      simp [Except.map] at h

theorem genoSlots_error_msg (al : List Char) :
    ∀ (files : List GenoFile) (n : Nat) (e : String),
      genoSlots al n files = .error e →
      e = "internal error in SEQ_MergeGeno" := by
  intro files
  induction files with
  | nil =>
    intro n e h
    simp [genoSlots] at h
  | cons f fs ih =>
    intro n e h
    simp only [genoSlots, bind, Except.bind] at h
    cases hf : genoFileSlot al n f with
    | error e' =>
      rw [hf] at h
      simp at h
      rw [← h]
      exact genoFileSlot_error_msg al n f e' hf
    | ok r =>
      rw [hf] at h
      cases hs : genoSlots al (n + 1) fs with
      | error e' =>
        rw [hs] at h
        simp at h
        rw [← h]
        exact ih (n + 1) e' hs
      | ok rs =>
        rw [hs] at h
        simp at h

theorem genoSlots_error_of_missing (al : List Char) :
    ∀ (files : List GenoFile) (n : Nat),
      (∃ f ∈ files, ∃ s codes, f.contrib = some (s, codes) ∧
        ∃ a ∈ GetAlleles s, a ∉ GetAlleles al) →
      genoSlots al n files = .error "internal error in SEQ_MergeGeno" := by
  intro files
  induction files with
  | nil =>
    intro n h
    simp at h
  | cons f fs ih =>
    intro n h
    simp only [genoSlots, bind, Except.bind]
    cases hf : genoFileSlot al n f with
    | error e' =>
      simp [genoFileSlot_error_msg al n f e' hf]
    | ok r =>
      rcases h with ⟨g, hg, s, codes, hgc, hmiss⟩
      rcases List.mem_cons.mp hg with rfl | hgfs
      · -- the head file itself has a missing allele: its slot must error
        exfalso
        simp only [genoFileSlot, hgc] at hf
        rw [buildAlleleMap_error_of_missing _ _ hmiss] at hf
        simp [Except.map] at hf
      · rw [ih (n + 1) ⟨g, hgfs, s, codes, hgc, hmiss⟩]

theorem genoSlots_ok_of_found (al : List Char) :
    ∀ (files : List GenoFile) (n : Nat),
      (∀ f ∈ files, ∀ s codes, f.contrib = some (s, codes) →
        ∀ a ∈ GetAlleles s, a ∈ GetAlleles al) →
      ∃ r, genoSlots al n files = .ok r := by
  intro files
  induction files with
  | nil =>
    intro n _
    exact ⟨([], []), rfl⟩
  | cons f fs ih =>
    intro n h
    have hslot : ∃ r, genoFileSlot al n f = .ok r := by
      cases hc : f.contrib with
      | none =>
        exact ⟨(List.replicate f.size NA_INTEGER, []),
          by simp [genoFileSlot, hc]⟩
      | some sc =>
        obtain ⟨s, codes⟩ := sc
        obtain ⟨m, hm⟩ := buildAlleleMap_ok_of_found (GetAlleles s) al
          (h f (List.mem_cons_self f fs) s codes hc)
        exact ⟨remapCodes m (GetAlleles s).length n codes,
          by simp [genoFileSlot, hc, hm, Except.map]⟩
    obtain ⟨r, hr⟩ := hslot
    obtain ⟨rs, hrs⟩ := ih (n + 1)
      (fun g hg => h g (List.mem_cons_of_mem f hg))
    exact ⟨(r.1 ++ rs.1, r.2 ++ rs.2),
      by simp [genoSlots, bind, Except.bind, hr, hrs]⟩

/-- **C4**: during genotype re-encoding in `SEQ_MergeGeno`, a local allele
component not found inside the unified allele string raises a fatal
internal-consistency error that aborts the merge of the record, whereas a
local genotype code that is neither the missing value nor within
`[0, nAllele)` only produces a non-fatal warning and is passed through
unmapped while processing continues. -/
theorem seq_mergeGeno_failure_semantics (al : List Char)
    (files : List GenoFile) :
    ((∃ f ∈ files, ∃ s codes, f.contrib = some (s, codes) ∧
        ∃ a ∈ GetAlleles s, a ∉ GetAlleles al) →
      mergeGenoRecord al files = .error "internal error in SEQ_MergeGeno") ∧
    ((∀ f ∈ files, ∀ s codes, f.contrib = some (s, codes) →
        ∀ a ∈ GetAlleles s, a ∈ GetAlleles al) →
      ∃ out, mergeGenoRecord al files = .ok out) ∧
    (∀ map nA j codes,
      remapCodes map nA j codes =
        (codes.map (fun c =>
            if 0 ≤ c ∧ c < (nA : Int) then map.getD c.toNat 0 else c),
          (codes.filter (fun c =>
              decide (¬(0 ≤ c ∧ c < (nA : Int)) ∧ c ≠ NA_INTEGER))).map
            (fun _ => s!"Genotype in File({j}), out of range."))) := by
  refine ⟨?_, ?_, fun map nA j codes => remapCodes_eq map nA j codes⟩
  · intro h
    have := genoSlots_error_of_missing al files 1 h
    simp [mergeGenoRecord, this, bind, Except.bind]
  · intro h
    obtain ⟨r, hr⟩ := genoSlots_ok_of_found al files 1 h
    exact ⟨(numBits (GetNumOfAllele al) / 2,
        packPlanes (numBits (GetNumOfAllele al)) r.1, r.2),
      by simp [mergeGenoRecord, hr, bind, Except.bind]⟩

/-- Witness for C4: one contributing file whose local allele `"G"` is absent
from the unified allele string `"A,C"` makes the merge of the record fail
with the internal error. -/
theorem seq_mergeGeno_failure_semantics_witness :
    (∃ f ∈ [(⟨some (['G'], [0]), 1⟩ : GenoFile)], ∃ s codes,
        f.contrib = some (s, codes) ∧
        ∃ a ∈ GetAlleles s, a ∉ GetAlleles ['A', ',', 'C']) ∧
    mergeGenoRecord ['A', ',', 'C'] [(⟨some (['G'], [0]), 1⟩ : GenoFile)] =
      .error "internal error in SEQ_MergeGeno" := by
  have hex : ∃ f ∈ [(⟨some (['G'], [0]), 1⟩ : GenoFile)], ∃ s codes,
      f.contrib = some (s, codes) ∧
      ∃ a ∈ GetAlleles s, a ∉ GetAlleles ['A', ',', 'C'] := by
    refine ⟨_, List.mem_singleton_self _, ['G'], [0], rfl, ⟨['G'], ?_, ?_⟩⟩
    · decide
    · decide
  exact ⟨hex,
    (seq_mergeGeno_failure_semantics ['A', ',', 'C']
      [(⟨some (['G'], [0]), 1⟩ : GenoFile)]).1 hex⟩

-- ===========================================================
-- SEQ_MergeAllele (FileMerge.cpp:56-106)
-- ===========================================================

/-- One source file's state in `SEQ_MergeAllele`: the not-yet-consumed merge
indices (the `pIdx` cursor) and the matching not-yet-read allele strings
(the `pI` cursor into the file's `allele` node). -/
structure AlleleFile where
  idx : List Nat
  vals : List (List Char)
deriving DecidableEq

/-- The union-insert loop of `FileMerge.cpp:87-92`: append each parsed
component not already present in `vec`. -/
def alleleUnionAdd (vec : List (List Char)) (vv : List (List Char)) :
    List (List Char) :=
  vv.foldl (fun acc v => if v ∈ acc then acc else acc ++ [v]) vec

/-- One file's step for global record `i` (`FileMerge.cpp:78-93`): when the
file's cursor maps to `i` (`*pIdx[j] == i`), consume one local record and
fold its parsed alleles into `vec`; otherwise leave both untouched. -/
def alleleStepFile (i : Nat) (vec : List (List Char)) (f : AlleleFile) :
    List (List Char) × AlleleFile :=
  match f.idx, f.vals with
  | a :: idx', v :: rec' =>
    if a = i then (alleleUnionAdd vec (GetAlleles v), ⟨idx', rec'⟩)
    else (vec, f)
  | _, _ => (vec, f)

/-- The inner `for (j=0; j < FileCnt; j++)` loop of `FileMerge.cpp:78-94`. -/
def alleleStepFiles (i : Nat) :
    List AlleleFile → List (List Char) → List (List Char) × List AlleleFile
  | [], vec => (vec, [])
  | f :: fs, vec =>
    let r := alleleStepFile i vec f
    let rs := alleleStepFiles i fs r.1
    (rs.1, r.2 :: rs.2)

/-- The main loop of `SEQ_MergeAllele` (`FileMerge.cpp:75-103`), emitting
`cnt` records starting from global record `i` (`vec.clear()` per record). -/
def mergeAlleleFrom (i : Nat) (cnt : Nat) (files : List AlleleFile) :
    List (List Char) :=
  match cnt with
  | 0 => []
  | cnt' + 1 =>
    let r := alleleStepFiles i files []
    joinAlleles r.1 :: mergeAlleleFrom (i + 1) cnt' r.2

/-- `SEQ_MergeAllele` (`FileMerge.cpp:56-106`): records `1..TotalNum`. -/
def SEQ_MergeAllele (TotalNum : Nat) (files : List AlleleFile) :
    List (List Char) :=
  mergeAlleleFrom 1 TotalNum files

/-- Spec side: the value a file contributes to global record `g` — the allele
string aligned with `g`'s position in the file's merge index — or `none`
when the merge index does not contain `g`. -/
def specContrib (g : Nat) (f : AlleleFile) : Option (List Char) :=
  if g ∈ f.idx then some (f.vals.getD (f.idx.indexOf g) []) else none

/-- Spec side, generalized over the running vector: visit files in file-index
order and fold each contributing file's parsed allele list into the union. -/
def specUnionFold (g : Nat) (files : List AlleleFile)
    (vec : List (List Char)) : List (List Char) :=
  files.foldl (fun acc f =>
    match specContrib g f with
    | some v => alleleUnionAdd acc (GetAlleles v)
    | none => acc) vec

/-- Spec side: the deduplicated union for global record `g`, first-seen order
across files in file-index order. -/
def specUnionVec (g : Nat) (files : List AlleleFile) : List (List Char) :=
  specUnionFold g files []

/-- Well-formedness of a merge index at the start of the loop for record `i`:
strictly increasing entries, all still ≥ `i`, and enough allele strings. -/
def fileWF (i : Nat) (f : AlleleFile) : Prop :=
  f.idx.Pairwise (· < ·) ∧ (∀ a ∈ f.idx, i ≤ a) ∧
    f.idx.length ≤ f.vals.length

def filesWF (i : Nat) (files : List AlleleFile) : Prop :=
  ∀ f ∈ files, fileWF i f

theorem alleleStepFile_spec (i : Nat) (vec : List (List Char))
    (f : AlleleFile) (hwf : fileWF i f) :
    (alleleStepFile i vec f).1 =
      (match specContrib i f with
        | some v => alleleUnionAdd vec (GetAlleles v)
        | none => vec) ∧
    fileWF (i + 1) (alleleStepFile i vec f).2 ∧
    (∀ g, i < g → specContrib g (alleleStepFile i vec f).2 = specContrib g f) := by
  obtain ⟨hpw, hge, hlen⟩ := hwf
  match hidx : f.idx, hrec : f.vals with
  | [], _ =>
    have hstep : alleleStepFile i vec f = (vec, f) := by
      simp [alleleStepFile, hidx]
    rw [hstep]
    refine ⟨by simp [specContrib, hidx], ⟨hpw, ?_, hlen⟩, fun g _ => rfl⟩
    rw [hidx]
    intro a ha
    exact absurd ha (List.not_mem_nil a)
  | a :: idx', [] =>
    exfalso
    rw [hidx, hrec] at hlen
    simp at hlen
  | a :: idx', v :: rec' =>
    rw [hidx] at hpw hge
    have htail : ∀ b ∈ idx', a < b := (List.pairwise_cons.mp hpw).1
    by_cases hai : a = i
    · subst hai
      have hstep : alleleStepFile a vec f =
          (alleleUnionAdd vec (GetAlleles v), ⟨idx', rec'⟩) := by
        simp [alleleStepFile, hidx, hrec]
      rw [hstep]
      refine ⟨?_, ?_, ?_⟩
      · have hmem : a ∈ f.idx := by rw [hidx]; exact List.mem_cons_self a idx'
        have hidxof : f.idx.indexOf a = 0 := by
          rw [hidx]
          simp [List.indexOf_cons]
        simp [specContrib, hmem, hidxof, hrec]
      · refine ⟨(List.pairwise_cons.mp hpw).2, ?_, ?_⟩
        · intro b hb
          exact htail b hb
        · rw [hidx, hrec] at hlen
          simpa using hlen
      · intro g hg
        have hgne : g ≠ a := by omega
        simp only [specContrib, hidx, hrec]
        by_cases hgmem : g ∈ idx'
        · have h1 : g ∈ a :: idx' := List.mem_cons_of_mem a hgmem
          rw [if_pos hgmem, if_pos h1]
          have : (a :: idx').indexOf g = idx'.indexOf g + 1 := by
            simp [List.indexOf_cons, beq_iff_eq, hgne.symm]
          rw [this]
          simp
        · have h1 : g ∉ a :: idx' := by
            intro hc
            rcases List.mem_cons.mp hc with h | h
            · exact hgne h
            · exact hgmem h
          rw [if_neg hgmem, if_neg h1]
    · have hstep : alleleStepFile i vec f = (vec, f) := by
        simp [alleleStepFile, hidx, hrec, hai]
      rw [hstep]
      have hnotmem : i ∉ f.idx := by
        rw [hidx]
        intro hc
        rcases List.mem_cons.mp hc with h | h
        · exact hai h.symm
        · have := hge i (List.mem_cons_of_mem a h)
          have := htail i h
          have := hge a (List.mem_cons_self a idx')
          omega
      refine ⟨by simp [specContrib, hnotmem], ⟨?_, ?_, hlen⟩, fun g _ => rfl⟩
      · rw [hidx]; exact hpw
      · rw [hidx]
        intro b hb
        rcases List.mem_cons.mp hb with rfl | hb'
        · have := hge b (List.mem_cons_self b idx')
          omega
        · have := htail b hb'
          have := hge a (List.mem_cons_self a idx')
          omega

theorem alleleStepFiles_spec (i : Nat) :
    ∀ (files : List AlleleFile) (vec : List (List Char)),
      filesWF i files →
      (alleleStepFiles i files vec).1 = specUnionFold i files vec ∧
      filesWF (i + 1) (alleleStepFiles i files vec).2 ∧
      (∀ g, i < g → ∀ w,
        specUnionFold g (alleleStepFiles i files vec).2 w =
          specUnionFold g files w) := by
  intro files
  induction files with
  | nil =>
    intro vec _
    exact ⟨rfl, fun f hf => absurd hf (List.not_mem_nil f), fun g _ w => rfl⟩
  | cons f fs ih =>
    intro vec hwf
    have hf := hwf f (List.mem_cons_self f fs)
    have hfs : filesWF i fs := fun g hg => hwf g (List.mem_cons_of_mem f hg)
    obtain ⟨h1, h2, h3⟩ := alleleStepFile_spec i vec f hf
    obtain ⟨ih1, ih2, ih3⟩ := ih (alleleStepFile i vec f).1 hfs
    refine ⟨?_, ?_, ?_⟩
    · show (alleleStepFiles i fs (alleleStepFile i vec f).1).1 = _
      rw [ih1, h1]
      simp only [specUnionFold, List.foldl_cons]
    · intro g hg
      rcases List.mem_cons.mp hg with rfl | hgfs
      · exact h2
      · exact ih2 g hgfs
    · intro g hg w
      show specUnionFold g ((alleleStepFile i vec f).2 ::
          (alleleStepFiles i fs (alleleStepFile i vec f).1).2) w = _
      simp only [specUnionFold, List.foldl_cons]
      rw [h3 g hg]
      exact ih3 g hg _

theorem mergeAlleleFrom_spec (cnt : Nat) :
    ∀ (i : Nat) (files : List AlleleFile), filesWF i files →
      mergeAlleleFrom i cnt files =
        (List.range' i cnt).map (fun g => joinAlleles (specUnionVec g files)) := by
  induction cnt with
  | zero =>
    intro i files _
    rfl
  | succ cnt' ih =>
    intro i files hwf
    obtain ⟨h1, h2, h3⟩ := alleleStepFiles_spec i files [] hwf
    rw [List.range'_succ]
    simp only [List.map_cons]
    show joinAlleles (alleleStepFiles i files []).1 :: _ = _
    rw [h1, ih (i + 1) _ h2]
    refine congrArg (joinAlleles (specUnionFold i files []) :: ·) ?_
    apply List.map_congr_left
    intro g hg
    have higt : i < g := by
      rw [List.mem_range'] at hg
      omega
    unfold specUnionVec
    rw [h3 g higt []]

/-- Spec-side characterization of `SEQ_MergeAllele` against the original
(uncursored) merge indices. -/
theorem seq_mergeAllele_eq_spec (TotalNum : Nat) (files : List AlleleFile)
    (hwf : filesWF 1 files) :
    SEQ_MergeAllele TotalNum files =
      (List.range' 1 TotalNum).map
        (fun g => joinAlleles (specUnionVec g files)) :=
  mergeAlleleFrom_spec TotalNum 1 files hwf

theorem alleleUnionAdd_append : ∀ (vv vec : List (List Char)),
    ∃ t, alleleUnionAdd vec vv = vec ++ t := by
  intro vv
  induction vv with
  | nil => exact fun vec => ⟨[], by simp [alleleUnionAdd]⟩
  | cons v rest ih =>
    intro vec
    simp only [alleleUnionAdd, List.foldl_cons]
    by_cases hv : v ∈ vec
    · rw [if_pos hv]
      exact ih vec
    · rw [if_neg hv]
      obtain ⟨t, ht⟩ := ih (vec ++ [v])
      exact ⟨[v] ++ t, by rw [← List.append_assoc]; exact ht⟩

theorem alleleUnionAdd_subset : ∀ (vv vec : List (List Char)),
    (∀ v ∈ vv, v ∈ vec) → alleleUnionAdd vec vv = vec := by
  intro vv
  induction vv with
  | nil => exact fun vec _ => rfl
  | cons v rest ih =>
    intro vec h
    simp only [alleleUnionAdd, List.foldl_cons]
    rw [if_pos (h v (List.mem_cons_self v rest))]
    exact ih vec (fun u hu => h u (List.mem_cons_of_mem v hu))

theorem alleleUnionAdd_disjoint : ∀ (vv vec : List (List Char)),
    vv.Nodup → (∀ v ∈ vv, v ∉ vec) → alleleUnionAdd vec vv = vec ++ vv := by
  intro vv
  induction vv with
  | nil => exact fun vec _ _ => by simp [alleleUnionAdd]
  | cons v rest ih =>
    intro vec hnd hdisj
    simp only [alleleUnionAdd, List.foldl_cons]
    rw [if_neg (hdisj v (List.mem_cons_self v rest))]
    have hnd' := (List.nodup_cons.mp hnd).2
    have hvrest := (List.nodup_cons.mp hnd).1
    show alleleUnionAdd (vec ++ [v]) rest = vec ++ v :: rest
    rw [ih (vec ++ [v]) hnd' ?_]
    · simp
    · intro u hu hmem
      rcases List.mem_append.mp hmem with h | h
      · exact hdisj u (List.mem_cons_of_mem v hu) h
      · exact hvrest (by rwa [List.mem_singleton.mp h] at hu)

theorem specUnionFold_append (g : Nat) : ∀ (files : List AlleleFile)
    (vec : List (List Char)), ∃ t, specUnionFold g files vec = vec ++ t := by
  intro files
  induction files with
  | nil => exact fun vec => ⟨[], by simp [specUnionFold]⟩
  | cons f fs ih =>
    intro vec
    simp only [specUnionFold, List.foldl_cons]
    cases hc : specContrib g f with
    | none => exact ih vec
    | some v =>
      obtain ⟨t1, ht1⟩ := alleleUnionAdd_append (GetAlleles v) vec
      obtain ⟨t2, ht2⟩ := ih (alleleUnionAdd vec (GetAlleles v))
      refine ⟨t1 ++ t2, ?_⟩
      show specUnionFold g fs (alleleUnionAdd vec (GetAlleles v)) = _
      rw [ht2, ht1, List.append_assoc]

theorem indexOf_range' : ∀ (n s g : Nat), g ∈ List.range' s n →
    (List.range' s n).indexOf g = g - s := by
  intro n
  induction n with
  | zero =>
    intro s g hg
    simp at hg
  | succ n ih =>
    intro s g hg
    rw [List.range'_succ] at hg ⊢
    by_cases hgs : g = s
    · subst hgs
      simp [List.indexOf_cons]
    · have hmem : g ∈ List.range' (s + 1) n := by
        rcases List.mem_cons.mp hg with h | h
        · exact absurd h hgs
        · exact h
      have hbeq : (s == g) = false := by
        simp [Ne.symm hgs]
      have hgs1 : s + 1 ≤ g := by
        have := List.mem_range'.mp hmem
        omega
      rw [List.indexOf_cons, hbeq]
      simp only [cond_false]
      rw [ih (s + 1) g hmem]
      omega

theorem map_getD_range' (recs : List (List Char)) :
    (List.range' 1 recs.length).map (fun g => recs.getD (g - 1) []) = recs := by
  apply List.ext_getElem
  · simp
  intro k hk1 hk2
  simp only [List.getElem_map, List.getElem_range']
  have harith : 1 + 1 * k - 1 = k := by omega
  rw [harith, List.getD_eq_getElem recs [] hk2]

/-- **C1** (amended): for every merge whose per-file merge indices are
strictly increasing runs of global record numbers in `1..TotalNum`,
`SEQ_MergeAllele` writes as record `g`'s output allele string the
comma-joined list obtained by visiting contributing files in file-index
order, parsing each file's comma-separated allele list in order, and
appending each component not already present (first-seen order, duplicates
dropped); the union is order-stable starting from the first contributing
file's alleles; and merging a single file with itself reproduces each of its
allele strings unchanged *provided each record's parsed component list is
duplicate-free* (a record with duplicate components has its duplicates
dropped). -/
theorem seq_mergeAllele_correct (TotalNum : Nat) (files : List AlleleFile)
    (hwf : filesWF 1 files) :
    (SEQ_MergeAllele TotalNum files =
      (List.range' 1 TotalNum).map
        (fun g => joinAlleles (specUnionVec g files))) ∧
    (∀ g f₀ rest v, files = f₀ :: rest → specContrib g f₀ = some v →
      ∃ t, specUnionVec g files = alleleUnionAdd [] (GetAlleles v) ++ t) ∧
    (∀ recs : List (List Char), (∀ v ∈ recs, (GetAlleles v).Nodup) →
      SEQ_MergeAllele recs.length
        [⟨List.range' 1 recs.length, recs⟩,
         ⟨List.range' 1 recs.length, recs⟩] = recs) := by
  refine ⟨seq_mergeAllele_eq_spec TotalNum files hwf, ?_, ?_⟩
  · rintro g f₀ rest v rfl hcontrib
    have hfold : specUnionVec g (f₀ :: rest) =
        specUnionFold g rest (alleleUnionAdd [] (GetAlleles v)) := by
      unfold specUnionVec specUnionFold
      simp [hcontrib]
    rw [hfold]
    exact specUnionFold_append g rest _
  · intro recs hnd
    have hfwf : fileWF 1 (⟨List.range' 1 recs.length, recs⟩ : AlleleFile) := by
      refine ⟨List.pairwise_lt_range' 1 recs.length, ?_, ?_⟩
      · intro a ha
        have := List.mem_range'.mp ha
        omega
      · simp
    have hwf2 : filesWF 1 [⟨List.range' 1 recs.length, recs⟩,
        ⟨List.range' 1 recs.length, recs⟩] := by
      intro g hg
      rcases List.mem_cons.mp hg with rfl | hg'
      · exact hfwf
      rcases List.mem_cons.mp hg' with rfl | hg''
      · exact hfwf
      · exact absurd hg'' (List.not_mem_nil g)
    rw [seq_mergeAllele_eq_spec recs.length _ hwf2]
    have hmap : ∀ g ∈ List.range' 1 recs.length,
        joinAlleles (specUnionVec g [⟨List.range' 1 recs.length, recs⟩,
          ⟨List.range' 1 recs.length, recs⟩]) = recs.getD (g - 1) [] := by
      intro g hg
      have hcontrib : specContrib g
          (⟨List.range' 1 recs.length, recs⟩ : AlleleFile) =
          some (recs.getD (g - 1) []) := by
        unfold specContrib
        rw [if_pos hg]
        rw [show (⟨List.range' 1 recs.length, recs⟩ : AlleleFile).vals = recs
          from rfl]
        rw [show (⟨List.range' 1 recs.length, recs⟩ : AlleleFile).idx =
          List.range' 1 recs.length from rfl]
        rw [indexOf_range' recs.length 1 g hg]
      have hglt : g - 1 < recs.length := by
        have := List.mem_range'.mp hg
        omega
      have hv : recs.getD (g - 1) [] ∈ recs := by
        rw [List.getD_eq_getElem recs [] hglt]
        exact List.getElem_mem hglt
      have hvnd : (GetAlleles (recs.getD (g - 1) [])).Nodup := hnd _ hv
      have h1 : alleleUnionAdd [] (GetAlleles (recs.getD (g - 1) [])) =
          GetAlleles (recs.getD (g - 1) []) := by
        have := alleleUnionAdd_disjoint (GetAlleles (recs.getD (g - 1) [])) []
          hvnd (by simp)
        simpa using this
      have hspec : specUnionVec g [⟨List.range' 1 recs.length, recs⟩,
          ⟨List.range' 1 recs.length, recs⟩] =
          GetAlleles (recs.getD (g - 1) []) := by
        unfold specUnionVec specUnionFold
        simp only [List.foldl_cons, List.foldl_nil, hcontrib]
        rw [h1]
        exact alleleUnionAdd_subset _ _ (fun u hu => hu)
      rw [hspec]
      unfold joinAlleles GetAlleles
      exact @List.intercalate_splitOn Char (recs.getD (g - 1) []) ','
        instDecidableEqChar
    rw [List.map_congr_left hmap]
    exact map_getD_range' recs

/-- Counterexample to C1 as stated: merging the one-record file whose allele
string is `"A,A"` with itself does not reproduce `"A,A"` — the duplicate
component is dropped and the output is `"A"`. -/
theorem seq_mergeAllele_selfmerge_cex :
    SEQ_MergeAllele 1
      [⟨[1], [['A', ',', 'A']]⟩, ⟨[1], [['A', ',', 'A']]⟩] ≠
      [['A', ',', 'A']] := by
  decide

/-- Witness for C1 at a concrete two-file merge: file 1 holds records 1 and 2
with alleles `"A,C"` and `"T"`, file 2 holds record 2 with alleles `"G,A"`;
the merged strings are `"A,C"` and `"T,G,A"`. -/
theorem seq_mergeAllele_correct_witness :
    filesWF 1 [⟨[1, 2], [['A', ',', 'C'], ['T']]⟩,
      ⟨[2], [['G', ',', 'A']]⟩] ∧
    SEQ_MergeAllele 2 [⟨[1, 2], [['A', ',', 'C'], ['T']]⟩,
        ⟨[2], [['G', ',', 'A']]⟩] =
      (List.range' 1 2).map (fun g => joinAlleles (specUnionVec g
        [⟨[1, 2], [['A', ',', 'C'], ['T']]⟩, ⟨[2], [['G', ',', 'A']]⟩])) := by
  have hwf : filesWF 1 [⟨[1, 2], [['A', ',', 'C'], ['T']]⟩,
      ⟨[2], [['G', ',', 'A']]⟩] := by
    intro f hf
    rcases List.mem_cons.mp hf with rfl | hf'
    · exact ⟨by decide, by decide, by decide⟩
    rcases List.mem_cons.mp hf' with rfl | hf''
    · exact ⟨by decide, by decide, by decide⟩
    · exact absurd hf'' (List.not_mem_nil f)
  exact ⟨hwf, (seq_mergeAllele_correct 2 _ hwf).1⟩

-- ===========================================================
-- SEQ_MergeInfo (FileMerge.cpp:306-372)
-- ===========================================================

/-- One source file's state in `SEQ_MergeInfo`: remaining merge indices and
the matching not-yet-read per-record values (each value an R vector read by
`FILE.ReadData`, modelled as `List Int`). -/
structure InfoFile where
  idx : List Nat
  vals : List (List Int)
deriving DecidableEq

/-- Output state of `SEQ_MergeInfo`: the data node (`GDS_R_Append`
concatenates appended vectors) and the optional ragged-length companion node
(`info_idx`, present only when the variable has one). -/
structure InfoOut where
  data : List Int
  lens : Option (List Int)
deriving DecidableEq

/-- Whether a file's merge-index cursor maps to global record `i`
(`*pIdx[j] == i`). -/
def infoMatches (i : Nat) (f : InfoFile) : Bool :=
  match f.idx with
  | a :: _ => a == i
  | [] => false

/-- The inner file loop of `FileMerge.cpp:340-358`: scan files in order for
the first whose cursor maps to record `i`; consume one record of that file
only and `break`, leaving all later files untouched. -/
def infoScan (i : Nat) : List InfoFile → Option (List Int × List InfoFile)
  | [] => none
  | f :: fs =>
    match f.idx, f.vals with
    | a :: idx', v :: vals' =>
      if a = i then some (v, ⟨idx', vals'⟩ :: fs)
      else match infoScan i fs with
        | some r => some (r.1, f :: r.2)
        | none => none
    | _, _ =>
      match infoScan i fs with
      | some r => some (r.1, f :: r.2)
      | none => none

/-- One global record of `SEQ_MergeInfo` (`FileMerge.cpp:337-366`): the first
matching file supplies the value (appended to the data node, its length
appended to the companion when one exists); when no file matches, a `0` goes
to the companion if it exists, otherwise a single missing scalar
(`ScalarInteger(NA_INTEGER)`) goes to the data node. -/
def mergeInfoRecord (i : Nat) (files : List InfoFile) (out : InfoOut) :
    List InfoFile × InfoOut :=
  match infoScan i files with
  | some r =>
    (r.2, ⟨out.data ++ r.1, out.lens.map (fun L => L ++ [(r.1.length : Int)])⟩)
  | none =>
    (files,
      match out.lens with
      | some L => ⟨out.data, some (L ++ [0])⟩
      | none => ⟨out.data ++ [NA_INTEGER], none⟩)

/-- The main loop of `SEQ_MergeInfo` over global records `i, i+1, …`. -/
def mergeInfoFrom (i cnt : Nat) (files : List InfoFile) (out : InfoOut) :
    InfoOut :=
  match cnt with
  | 0 => out
  | c + 1 =>
    let r := mergeInfoRecord i files out
    mergeInfoFrom (i + 1) c r.1 r.2

/-- `SEQ_MergeInfo` (`FileMerge.cpp:306-372`): records `1..TotalNum` starting
from empty output nodes; `hasIdx` tells whether the ragged-length companion
node exists. -/
def SEQ_MergeInfo (TotalNum : Nat) (files : List InfoFile) (hasIdx : Bool) :
    InfoOut :=
  mergeInfoFrom 1 TotalNum files ⟨[], if hasIdx then some [] else none⟩

theorem infoScan_skip (i : Nat) (f : InfoFile) (fs : List InfoFile)
    (h : infoMatches i f = false) :
    infoScan i (f :: fs) =
      match infoScan i fs with
      | some r => some (r.1, f :: r.2)
      | none => none := by
  match hidx : f.idx, hvals : f.vals with
  | [], _ =>
    simp [infoScan, hidx]
  | a :: idx', [] =>
    simp [infoScan, hidx, hvals]
  | a :: idx', v :: vals' =>
    have hai : ¬(a = i) := by
      simp [infoMatches, hidx] at h
      exact h
    simp [infoScan, hidx, hvals, hai]

theorem infoScan_first (i : Nat) : ∀ (pre : List InfoFile) (f : InfoFile)
    (post : List InfoFile) (v : List Int) (vs : List (List Int)),
    (∀ g ∈ pre, infoMatches i g = false) → infoMatches i f = true →
    f.vals = v :: vs →
    infoScan i (pre ++ f :: post) =
      some (v, pre ++ (⟨f.idx.tail, vs⟩ : InfoFile) :: post) := by
  intro pre
  induction pre with
  | nil =>
    intro f post v vs _ hf hv
    obtain ⟨a, idx', hidx⟩ : ∃ a idx', f.idx = a :: idx' := by
      cases hidx : f.idx with
      | nil => simp [infoMatches, hidx] at hf
      | cons a idx' => exact ⟨a, idx', rfl⟩
    have hai : a = i := by
      simp [infoMatches, hidx] at hf
      exact hf
    subst hai
    simp [infoScan, hidx, hv]
  | cons p ps ih =>
    intro f post v vs hpre hf hv
    have hp : infoMatches i p = false := hpre p (List.mem_cons_self p ps)
    have hps : ∀ g ∈ ps, infoMatches i g = false :=
      fun g hg => hpre g (List.mem_cons_of_mem p hg)
    simp only [List.cons_append]
    rw [infoScan_skip i p (ps ++ f :: post) hp, ih f post v vs hps hf hv]

/-- **C5**: for every global record in `SEQ_MergeInfo`, at most one file
contributes: the first file in file order whose cursor maps to the record
supplies the value appended to the output node (with the value's length
appended to the ragged-length companion when one exists), and later files
are not consulted for that record; when no file contributes, a `0` is
appended to the ragged-length companion if it exists (nothing to the data
node), otherwise a type-appropriate missing scalar is appended to the data
node. -/
theorem seq_mergeInfo_first_match (i : Nat) (out : InfoOut) :
    (∀ pre f post v vs,
      (∀ g ∈ pre, infoMatches i g = false) → infoMatches i f = true →
      f.vals = v :: vs →
      mergeInfoRecord i (pre ++ f :: post) out =
        (pre ++ (⟨f.idx.tail, vs⟩ : InfoFile) :: post,
          ⟨out.data ++ v,
            out.lens.map (fun L => L ++ [(v.length : Int)])⟩)) ∧
    (∀ files, (∀ g ∈ files, infoMatches i g = false) →
      mergeInfoRecord i files out =
        (files,
          match out.lens with
          | some L => ⟨out.data, some (L ++ [0])⟩
          | none => ⟨out.data ++ [NA_INTEGER], none⟩)) := by
  constructor
  · intro pre f post v vs hpre hf hv
    rw [mergeInfoRecord, infoScan_first i pre f post v vs hpre hf hv]
  · intro files hall
    have hscan : infoScan i files = none := by
      induction files with
      | nil => rfl
      | cons f fs ihf =>
        rw [infoScan_skip i f fs (hall f (List.mem_cons_self f fs))]
        rw [ihf (fun g hg => hall g (List.mem_cons_of_mem f hg))]
    simp [mergeInfoRecord, hscan]

/-- Witness for C5 at the spec's example: files `A` and `B` both hold record
7 (values `[5]` and `[9]`); the merged value is `A`'s `[5]`, never `B`'s,
and `B` is left untouched. -/
theorem seq_mergeInfo_first_match_witness :
    ((∀ g ∈ ([] : List InfoFile), infoMatches 7 g = false) ∧
      infoMatches 7 (⟨[7], [[5]]⟩ : InfoFile) = true ∧
      (⟨[7], [[5]]⟩ : InfoFile).vals = [5] :: []) ∧
    mergeInfoRecord 7 [⟨[7], [[5]]⟩, ⟨[7], [[9]]⟩] ⟨[], some []⟩ =
      ([⟨[], []⟩, ⟨[7], [[9]]⟩], ⟨[5], some [1]⟩) := by
  refine ⟨⟨by simp, by decide, rfl⟩, ?_⟩
  have h := (seq_mergeInfo_first_match 7 ⟨[], some []⟩).1 []
    (⟨[7], [[5]]⟩ : InfoFile) [⟨[7], [[9]]⟩] [5] [] (by simp) (by decide) rfl
  simpa using h

-- ===========================================================
-- get_info, padNA flatten branch (GetData.cpp:451-549)
-- ===========================================================

/-- Carrier for R doubles: the code only moves them, never computes, so an
opaque value with a distinguished NaN is a faithful model. -/
inductive RDouble
  | rnan
  | rval (x : Int)
deriving DecidableEq

/-- One R vector element, tagged by its `SEXPTYPE`.  R logicals are ints
(`NA_LOGICAL = INT_MIN`), `NA_STRING` is `sv none`. -/
inductive RElem
  | iv (x : Int)
  | dv (x : RDouble)
  | lv (x : Int)
  | sv (x : Option String)
  | rv (x : Nat)
deriving DecidableEq

/-- The `TYPEOF(val)` tags the `.padNA` switch cares about; `VECSXP` stands
for any element type outside the five supported ones. -/
inductive SEXPTYPE
  | INTSXP
  | REALSXP
  | LGLSXP
  | STRSXP
  | RAWSXP
  | VECSXP
deriving DecidableEq

/-- The per-type missing scalar of the `.padNA` switch (`GetData.cpp:507-548`):
integer NA, `R_NaN`, logical NA, `NA_STRING`, and the all-ones byte `0xFF`;
`none` for an unsupported element type (the `default:` branch). -/
def padNAval : SEXPTYPE → Option RElem
  | .INTSXP => some (.iv NA_INTEGER)
  | .REALSXP => some (.dv .rnan)
  | .LGLSXP => some (.lv NA_INTEGER)
  | .STRSXP => some (.sv none)
  | .RAWSXP => some (.rv 0xFF)
  | .VECSXP => none

/-- The flatten loop shared by the five `switch` branches of
`GetData.cpp:509-546`: `p[i] = (psel[i]) ? (*s++) : NA`. -/
def padNAflatten (na : RElem) : List Int → List RElem → List RElem
  | [], _ => []
  | l :: ls, vals =>
    if l ≠ 0 then vals.headD na :: padNAflatten na ls vals.tail
    else na :: padNAflatten na ls vals

/-- Select the entries of `xs` marked `true` in `sel`, in order (the effect
of reading with a boolean selection mask). -/
def selectList {α : Type} : List Bool → List α → List α
  | true :: bs, x :: xs => x :: selectList bs xs
  | false :: bs, _ :: xs => selectList bs xs
  | _, _ => []

/-- The `.padNA` flatten branch of `get_info` (`GetData.cpp:501-549`) for a
one-dimensional ragged column: `lengths` is the full per-record length array,
`storage` the per-record value runs, `sel` the record selection.  Modelled
from the spec: `CIndex::GetLen_Sel` (not under `src/`) supplies the selected
records' lengths (`I32`) and the bulk read supplies the selected records'
values (`val`), both in selection order. -/
def get_info_padNA (ty : SEXPTYPE) (lengths : List Nat)
    (storage : List (List RElem)) (sel : List Bool) :
    Except String (List RElem) :=
  let psel := (selectList sel lengths).map Int.ofNat
  let val := (selectList sel storage).flatten
  match padNAval ty with
  | some na => .ok (padNAflatten na psel val)
  | none => .error "Not support data type for .padNA=TRUE."

/-- Spec side: one slot per selected record in selection order — a record of
length 1 yields its stored value, a record of length 0 the missing value. -/
def specPadNA (na : RElem) : List Bool → List Nat → List (List RElem) →
    List RElem
  | true :: bs, L :: Ls, r :: rs =>
    (if L = 1 then r.headD na else na) :: specPadNA na bs Ls rs
  | false :: bs, _ :: Ls, _ :: rs => specPadNA na bs Ls rs
  | _, _, _ => []

theorem padNAflatten_select (na : RElem) :
    ∀ (sel : List Bool) (lengths : List Nat) (storage : List (List RElem)),
    lengths.length = sel.length → storage.length = sel.length →
    (∀ p ∈ List.zip lengths storage, p.2.length = p.1 ∧ p.1 ≤ 1) →
    padNAflatten na ((selectList sel lengths).map Int.ofNat)
        (selectList sel storage).flatten =
      specPadNA na sel lengths storage := by
  intro sel
  induction sel with
  | nil =>
    intro lengths storage h1 h2 _
    rw [List.length_eq_zero.mp h1, List.length_eq_zero.mp h2]
    rfl
  | cons b bs ih =>
    intro lengths storage h1 h2 hwf
    match lengths, storage with
    | [], _ => simp at h1
    | _ :: _, [] => simp at h2
    | L :: Ls, r :: rs =>
      have hhd : r.length = L ∧ L ≤ 1 :=
        hwf (L, r) (by rw [List.zip_cons_cons]; exact List.mem_cons_self _ _)
      have htl : ∀ p ∈ List.zip Ls rs, p.2.length = p.1 ∧ p.1 ≤ 1 := by
        intro p hp
        exact hwf p (by rw [List.zip_cons_cons]; exact List.mem_cons_of_mem _ hp)
      have h1' : Ls.length = bs.length := by simpa using h1
      have h2' : rs.length = bs.length := by simpa using h2
      cases b with
      | false => exact ih Ls rs h1' h2' htl
      | true =>
        have hL : L ≤ 1 := hhd.2
        interval_cases L
        · -- length 0: the record contributed no value
          have hr : r = [] := List.length_eq_zero.mp hhd.1
          subst hr
          show padNAflatten na (Int.ofNat 0 :: (selectList bs Ls).map Int.ofNat)
            ([] ++ (selectList bs rs).flatten) = _
          rw [List.nil_append]
          show (if Int.ofNat 0 ≠ 0 then _ else
            na :: padNAflatten na ((selectList bs Ls).map Int.ofNat)
              (selectList bs rs).flatten) = _
          rw [if_neg (by norm_num)]
          show na :: padNAflatten na ((selectList bs Ls).map Int.ofNat)
            (selectList bs rs).flatten = na :: specPadNA na bs Ls rs
          rw [ih Ls rs h1' h2' htl]
        · -- length 1: the record contributed exactly one value
          obtain ⟨x, hx⟩ : ∃ x, r = [x] := List.length_eq_one.mp hhd.1
          subst hx
          show padNAflatten na (Int.ofNat 1 :: (selectList bs Ls).map Int.ofNat)
            ([x] ++ (selectList bs rs).flatten) = _
          rw [List.singleton_append]
          show (if Int.ofNat 1 ≠ 0 then
            (x :: (selectList bs rs).flatten).headD na ::
              padNAflatten na ((selectList bs Ls).map Int.ofNat)
                (x :: (selectList bs rs).flatten).tail
            else _) = _
          rw [if_pos (by norm_num)]
          show x :: padNAflatten na ((selectList bs Ls).map Int.ofNat)
            (selectList bs rs).flatten = x :: specPadNA na bs Ls rs
          rw [ih Ls rs h1' h2' htl]

/-- **C6**: for every ragged scalar info column (one-dimensional, every
per-record length 0 or 1) read with `padNA=true`, the result has exactly one
slot per selected record in selection order: a record of length 1 yields its
stored value and a record of length 0 yields the element type's missing
value (integer NA, NaN for double, logical NA, string NA, or the all-ones
byte for raw); an element type outside these five fails with a
type-not-supported error. -/
theorem get_info_padNA_scalar (ty : SEXPTYPE) (lengths : List Nat)
    (storage : List (List RElem)) (sel : List Bool)
    (h1 : lengths.length = sel.length) (h2 : storage.length = sel.length)
    (hwf : ∀ p ∈ List.zip lengths storage, p.2.length = p.1 ∧ p.1 ≤ 1) :
    (∀ na, padNAval ty = some na →
      get_info_padNA ty lengths storage sel =
        .ok (specPadNA na sel lengths storage)) ∧
    (padNAval ty = none →
      get_info_padNA ty lengths storage sel =
        .error "Not support data type for .padNA=TRUE.") ∧
    (padNAval .INTSXP = some (.iv NA_INTEGER) ∧
      padNAval .REALSXP = some (.dv .rnan) ∧
      padNAval .LGLSXP = some (.lv NA_INTEGER) ∧
      padNAval .STRSXP = some (.sv none) ∧
      padNAval .RAWSXP = some (.rv 0xFF) ∧ padNAval .VECSXP = none) := by
  refine ⟨?_, ?_, rfl, rfl, rfl, rfl, rfl, rfl⟩
  · intro na hna
    simp only [get_info_padNA, hna]
    rw [padNAflatten_select na sel lengths storage h1 h2 hwf]
  · intro hna
    simp [get_info_padNA, hna]

/-- Witness for C6 at the spec's example: lengths `[1,0,1]`, selection "all",
integer element type — slot 2 is the integer NA, slots 1 and 3 the stored
values. -/
theorem get_info_padNA_scalar_witness :
    (([1, 0, 1] : List Nat).length = ([true, true, true] : List Bool).length ∧
      ([[RElem.iv 10], [], [RElem.iv 30]] : List (List RElem)).length =
        ([true, true, true] : List Bool).length ∧
      (∀ p ∈ List.zip ([1, 0, 1] : List Nat)
          ([[RElem.iv 10], [], [RElem.iv 30]] : List (List RElem)),
        p.2.length = p.1 ∧ p.1 ≤ 1)) ∧
    get_info_padNA .INTSXP [1, 0, 1] [[RElem.iv 10], [], [RElem.iv 30]]
        [true, true, true] =
      .ok [RElem.iv 10, RElem.iv NA_INTEGER, RElem.iv 30] := by
  refine ⟨⟨by decide, by decide, by decide⟩, ?_⟩
  have h := (get_info_padNA_scalar .INTSXP [1, 0, 1]
    [[RElem.iv 10], [], [RElem.iv 30]] [true, true, true]
    (by decide) (by decide) (by decide)).1 (.iv NA_INTEGER) rfl
  rw [h]
  decide

-- ===========================================================
-- get_position, get_genotype, SEQ_BApply_Variant (GetData.cpp)
-- ===========================================================

/-- `File.VariantSelNum()` / `File.SampleSelNum()`: the number of `true`
entries of a selection mask. -/
def countTrue (sel : List Bool) : Nat := sel.count true

/-- `get_position` (`GetData.cpp:106-119`): allocate `n = VariantSelNum`
slots and, when `n > 0`, collect the selected positions in order. -/
def get_position (positions : List Int) (sel : List Bool) : List Int :=
  if countTrue sel = 0 then [] else selectList sel positions

/-- `get_genotype` (`GetData.cpp:167-205`): with zero selected samples or
zero selected variants the function returns `R_NilValue` (`none`), not an
error; otherwise it reads the selected data.  Modelled from the spec: the
per-variant cursor read (`CApply_Variant_Geno`, not under `src/`) yields the
selected variants' selected samples' ploidy blocks in order. -/
def get_genotype (geno : List (List (List Int))) (selV selS : List Bool) :
    Option (List Int) :=
  if 0 < countTrue selS ∧ 0 < countTrue selV then
    some ((selectList selV geno).map
      (fun v => (selectList selS v).flatten)).flatten
  else none

/-- The sub-selection collection loop of `SEQ_BApply_Variant`
(`GetData.cpp:1156-1171`): starting at absolute position `base`, skip
unselected entries and collect up to `bs` selected positions
(`pNewSel[pSel - pBase] = TRUE`); returns the collected positions, the new
cursor base, and the remaining mask. -/
def collectChunk (bs : Nat) (base : Nat) :
    List Bool → List Nat × Nat × List Bool
  | [] => ([], base, [])
  | b :: rest =>
    match bs with
    | 0 => ([], base, b :: rest)
    | bs' + 1 =>
      if b then
        let r := collectChunk bs' (base + 1) rest
        (base :: r.1, r.2.1, r.2.2)
      else collectChunk (bs' + 1) (base + 1) rest

/-- The `for (idx=0; idx < NumBlock; idx++)` loop of
`GetData.cpp:1137-1243`, reduced to the narrowed selections it produces. -/
def bapplyChunks (numBlock bsize base : Nat) (rem : List Bool) :
    List (List Nat) :=
  match numBlock with
  | 0 => []
  | nb + 1 =>
    let r := collectChunk bsize base rem
    r.1 :: bapplyChunks nb bsize r.2.1 r.2.2

/-- `SEQ_BApply_Variant` (`GetData.cpp:1016-1251`), restricted to its
chunking skeleton: the `bsize` check, the no-selected-variant check, the
block count `NumBlock = nVariant / bsize (+1 on a remainder)`, and the chunk
decomposition.  The user-function invocation and output routing per chunk
are external collaborators. -/
def SEQ_BApply_Variant (sel : List Bool) (bsize : Nat) :
    Except String (List (List Nat)) :=
  if bsize < 1 then .error "'bsize' must be >= 1."
  else
    let nVariant := countTrue sel
    if nVariant ≤ 0 then .error "There is no selected variant."
    else
      let NumBlock := nVariant / bsize + (if nVariant % bsize ≠ 0 then 1 else 0)
      .ok (bapplyChunks NumBlock bsize 0 sel)

/-- The positions of the `true` entries of a mask, offset by `base`. -/
def truePosFrom (base : Nat) : List Bool → List Nat
  | [] => []
  | b :: rest =>
    if b then base :: truePosFrom (base + 1) rest
    else truePosFrom (base + 1) rest

def truePositions (sel : List Bool) : List Nat := truePosFrom 0 sel

/-- Spec side: the consecutive groups of up to `bs` elements of `T`. -/
def specChunks (nb bs : Nat) (T : List Nat) : List (List Nat) :=
  match nb with
  | 0 => []
  | n + 1 => T.take bs :: specChunks n bs (T.drop bs)

theorem collectChunk_spec : ∀ (l : List Bool) (bs base : Nat),
    (collectChunk bs base l).1 = (truePosFrom base l).take bs ∧
    truePosFrom (collectChunk bs base l).2.1 (collectChunk bs base l).2.2 =
      (truePosFrom base l).drop bs := by
  intro l
  induction l with
  | nil =>
    intro bs base
    simp [collectChunk, truePosFrom]
  | cons b rest ih =>
    intro bs base
    match bs with
    | 0 => simp [collectChunk, truePosFrom]
    | bs' + 1 =>
      cases b with
      | true =>
        have h := ih bs' (base + 1)
        constructor
        · show base :: (collectChunk bs' (base + 1) rest).1 =
            ((base :: truePosFrom (base + 1) rest).take (bs' + 1))
          rw [List.take_succ_cons, h.1]
        · show truePosFrom (collectChunk bs' (base + 1) rest).2.1
              (collectChunk bs' (base + 1) rest).2.2 =
            ((base :: truePosFrom (base + 1) rest).drop (bs' + 1))
          rw [List.drop_succ_cons, h.2]
      | false =>
        have h := ih (bs' + 1) (base + 1)
        exact h

theorem bapplyChunks_spec : ∀ (nb bs base : Nat) (l : List Bool),
    bapplyChunks nb bs base l = specChunks nb bs (truePosFrom base l) := by
  intro nb
  induction nb with
  | zero => intro bs base l; rfl
  | succ n ih =>
    intro bs base l
    obtain ⟨h1, h2⟩ := collectChunk_spec l bs base
    show (collectChunk bs base l).1 :: bapplyChunks n bs _ _ = _
    rw [h1, ih bs (collectChunk bs base l).2.1 (collectChunk bs base l).2.2,
      h2]
    rfl

theorem specChunks_length (bs : Nat) : ∀ (nb : Nat) (T : List Nat),
    (specChunks nb bs T).length = nb := by
  intro nb
  induction nb with
  | zero => intro T; rfl
  | succ n ih => intro T; simp [specChunks, ih]

theorem specChunks_get (bs : Nat) : ∀ (nb : Nat) (T : List Nat) (k : Nat)
    (hk : k < (specChunks nb bs T).length),
    (specChunks nb bs T).get ⟨k, hk⟩ = (T.drop (k * bs)).take bs := by
  intro nb
  induction nb with
  | zero =>
    intro T k hk
    simp [specChunks] at hk
  | succ n ih =>
    intro T k hk
    match k with
    | 0 => simp [specChunks]
    | k' + 1 =>
      have hk' : k' < (specChunks n bs (T.drop bs)).length := by
        simpa [specChunks] using hk
      show (specChunks n bs (T.drop bs)).get ⟨k', hk'⟩ = _
      rw [ih (T.drop bs) k' hk']
      rw [List.drop_drop]
      congr 2
      ring

theorem mem_truePosFrom : ∀ (l : List Bool) (base p : Nat),
    p ∈ truePosFrom base l → base ≤ p := by
  intro l
  induction l with
  | nil => intro base p hp; simp [truePosFrom] at hp
  | cons b rest ih =>
    intro base p hp
    cases b with
    | true =>
      rcases List.mem_cons.mp hp with rfl | hp'
      · omega
      · have := ih (base + 1) p hp'
        omega
    | false =>
      have := ih (base + 1) p hp
      omega

theorem numBlock_eq_ceil (n bs : Nat) (hbs : 1 ≤ bs) :
    n / bs + (if n % bs ≠ 0 then 1 else 0) = (n + bs - 1) / bs := by
  have hq := Nat.div_add_mod n bs
  have hr : n % bs < bs := Nat.mod_lt _ (by omega)
  rcases Nat.eq_zero_or_pos (n % bs) with h | h
  · rw [if_neg (by omega)]
    have hstep : n + bs - 1 = bs * (n / bs) + (bs - 1) := by omega
    have hdiv : (n + bs - 1) / bs = n / bs + (bs - 1) / bs := by
      rw [hstep, Nat.mul_add_div (by omega)]
    have h0 : (bs - 1) / bs = 0 := Nat.div_eq_of_lt (by omega)
    omega
  · rw [if_pos (by omega)]
    have hexp : bs * (n / bs + 1) = bs * (n / bs) + bs := by ring
    have hstep : n + bs - 1 = bs * (n / bs + 1) + (n % bs - 1) := by omega
    have hdiv : (n + bs - 1) / bs = (n / bs + 1) + (n % bs - 1) / bs := by
      rw [hstep, Nat.mul_add_div (by omega)]
    have h0 : (n % bs - 1) / bs = 0 := Nat.div_eq_of_lt (by omega)
    omega

theorem countTrue_truePosFrom : ∀ (l : List Bool) (base : Nat),
    (truePosFrom base l).length = countTrue l := by
  intro l
  induction l with
  | nil => intro base; rfl
  | cons b rest ih =>
    intro base
    cases b with
    | true => simp [truePosFrom, countTrue, List.count_cons, ih]
    | false => simp [truePosFrom, countTrue, List.count_cons, ih]

/-- **C8**: for every non-empty record selection of `n` records and every
chunk size `bsize ≥ 1`, `SEQ_BApply_Variant` processes exactly
`⌈n / bsize⌉` chunks strictly in selection order: chunk `k` is the `k`-th
consecutive run of up to `bsize` true positions of the selection (only the
last chunk may be shorter), and every position of a chunk is a selected
position of the original selection. -/
theorem seq_bapply_chunking (sel : List Bool) (bsize : Nat)
    (hb : 1 ≤ bsize) (hn : 1 ≤ countTrue sel) :
    ∃ chunks, SEQ_BApply_Variant sel bsize = .ok chunks ∧
      chunks.length = (countTrue sel + bsize - 1) / bsize ∧
      (∀ k (hk : k < chunks.length),
        chunks.get ⟨k, hk⟩ =
          ((truePositions sel).drop (k * bsize)).take bsize) ∧
      (∀ c ∈ chunks, ∀ p ∈ c, p ∈ truePositions sel) := by
  have hbs : ¬(bsize < 1) := by omega
  have hnn : ¬(countTrue sel ≤ 0) := by omega
  refine ⟨bapplyChunks
      (countTrue sel / bsize + (if countTrue sel % bsize ≠ 0 then 1 else 0))
      bsize 0 sel, ?_, ?_, ?_, ?_⟩
  · simp only [SEQ_BApply_Variant, if_neg hbs, if_neg hnn]
  · rw [bapplyChunks_spec, specChunks_length,
      numBlock_eq_ceil (countTrue sel) bsize hb]
  · intro k hk
    have hk' : k < (specChunks
        (countTrue sel / bsize + (if countTrue sel % bsize ≠ 0 then 1 else 0))
        bsize (truePosFrom 0 sel)).length := by
      rw [← bapplyChunks_spec]
      exact hk
    exact (List.get_of_eq (bapplyChunks_spec _ bsize 0 sel) ⟨k, hk⟩).trans
      (specChunks_get bsize _ (truePosFrom 0 sel) k hk')
  · intro c hc p hp
    rw [bapplyChunks_spec] at hc
    have hsub : ∀ nb T, ∀ c ∈ specChunks nb bsize T, ∀ p ∈ c, p ∈ T := by
      intro nb
      induction nb with
      | zero =>
        intro T c hc
        simp [specChunks] at hc
      | succ m ih =>
        intro T c hc p hp
        rcases List.mem_cons.mp hc with rfl | hc'
        · exact List.take_subset _ _ hp
        · exact List.drop_subset _ _ (ih (T.drop bsize) c hc' p hp)
    exact hsub _ _ c hc p hp

/-- Witness for C8 at the spec's example: selected records `{2,5,6,9}` with
chunk size 2 give exactly the two chunks `{2,5}` then `{6,9}`. -/
theorem seq_bapply_chunking_witness :
    (1 ≤ 2 ∧ 1 ≤ countTrue
      [false, false, true, false, false, true, true, false, false, true]) ∧
    ∃ chunks, SEQ_BApply_Variant
        [false, false, true, false, false, true, true, false, false, true] 2 =
        .ok chunks ∧
      chunks.length = (countTrue
        [false, false, true, false, false, true, true, false, false, true] +
          2 - 1) / 2 ∧
      (∀ k (hk : k < chunks.length),
        chunks.get ⟨k, hk⟩ = ((truePositions
          [false, false, true, false, false, true, true, false, false, true]
            ).drop (k * 2)).take 2) ∧
      (∀ c ∈ chunks, ∀ p ∈ c, p ∈ truePositions
        [false, false, true, false, false, true, true, false, false, true]) :=
  ⟨⟨by decide, by decide⟩,
    seq_bapply_chunking
      [false, false, true, false, false, true, true, false, false, true] 2
      (by decide) (by decide)⟩

/-- The chunks of the spec's example, computed: `{2,5}` then `{6,9}`. -/
theorem seq_bapply_chunking_example :
    SEQ_BApply_Variant
      [false, false, true, false, false, true, true, false, false, true] 2 =
      .ok [[2, 5], [6, 9]] := by
  decide

/-- **C7**: when the record-axis selection has zero selected records, the
element-wise getters return an empty (for `get_genotype`: `R_NilValue`)
result — they are total functions with no error case — while
`SEQ_BApply_Variant` fails with the no-selected-variant error before
processing any chunk. -/
theorem empty_selection_behavior (positions : List Int)
    (geno : List (List (List Int))) (selV selS : List Bool) (bsize : Nat)
    (hv : countTrue selV = 0) (hb : 1 ≤ bsize) :
    get_position positions selV = [] ∧
    get_genotype geno selV selS = none ∧
    SEQ_BApply_Variant selV bsize = .error "There is no selected variant." := by
  refine ⟨by simp [get_position, hv], ?_, ?_⟩
  · have : ¬(0 < countTrue selS ∧ 0 < countTrue selV) := by omega
    simp [get_genotype, this]
  · simp [SEQ_BApply_Variant, hv]
    omega

/-- Witness for C7 at an all-false two-record selection. -/
theorem empty_selection_behavior_witness :
    (countTrue [false, false] = 0 ∧ 1 ≤ 3) ∧
    (get_position [10, 20] [false, false] = [] ∧
      get_genotype [[[0]], [[1]]] [false, false] [true] = none ∧
      SEQ_BApply_Variant [false, false] 3 =
        .error "There is no selected variant.") :=
  ⟨⟨by decide, by decide⟩,
    empty_selection_behavior [10, 20] [[[0]], [[1]]] [false, false] [true] 3
      (by decide) (by decide)⟩

-- ===========================================================
-- VarGetStruct: name resolution and caching (GetData.cpp:794-927)
-- ===========================================================

/-- The retrieval strategy picked by the resolver (the `TVarMap` function
pointer). -/
inductive VarFunc
  | sample1dFn
  | positionFn
  | chromFn
  | data1dFn
  | genoFn
  | phaseFn
  | dosageFn
  | dosageAltFn
  | numAlleleFn
  | refAlleleFn
  | altAlleleFn
  | chromPos2Fn
  | chromPosAlleleFn
  | sampleIdxFn
  | variantIdxFn
  | infoFn
  | formatFn
  | envRFn
deriving DecidableEq

/-- A resolved variable descriptor (`TVarMap`): storage path (`Name`),
retrieval function, and the node's dimensionality. -/
structure TVarMap where
  name : String
  func : VarFunc
  ndim : Nat
  dims : List Nat
deriving DecidableEq

/-- The live file: sample/variant cardinalities and each storage node's
dimension extents by path (a missing node has no extents). -/
structure CFileInfo where
  sampleNum : Nat
  variantNum : Nat
  nodeDims : String → List Nat

/-- `TVarMap::Init` (declared outside `src/`): bind the descriptor to the
node at `path` and record its shape. -/
def vmInit (env : CFileInfo) (path : String) (f : VarFunc) : TVarMap :=
  ⟨path, f, (env.nodeDims path).length, env.nodeDims path⟩

/-- `ERR_DIM` (`GetData.cpp:45`), formatted. -/
def dimErr (nm : String) : String :=
  "Invalid dimension of '" ++ nm ++ "'."

/-- `CHECK_SAMPLE_DIMENSION` (`GetData.cpp:36-38`). -/
def checkSampleDim (env : CFileInfo) (vm : TVarMap) : Except String TVarMap :=
  if vm.ndim ≠ 1 ∨ vm.dims.headD 0 ≠ env.sampleNum then .error (dimErr vm.name)
  else .ok vm

/-- `CHECK_VARIANT_ONE_DIMENSION` (`GetData.cpp:39-41`). -/
def checkVariantDim (env : CFileInfo) (vm : TVarMap) : Except String TVarMap :=
  if vm.ndim ≠ 1 ∨ vm.dims.headD 0 ≠ env.variantNum then .error (dimErr vm.name)
  else .ok vm

/-- The invalid-name error of `GetData.cpp:915-920`, enumerating the accepted
syntaxes. -/
def invalidNameMsg (name : String) : String :=
  "'" ++ name ++ "' is not a standard variable name, and the standard format:\n" ++
  "    sample.id, variant.id, position, chromosome, allele, genotype\n" ++
  "    annotation/id, annotation/qual, annotation/filter\n" ++
  "    annotation/info/VARIABLE_NAME, annotation/format/VARIABLE_NAME\n" ++
  "    sample.annotation/VARIABLE_NAME, etc"

/-- Kernel-computable `strncmp(name, p, strlen(p)) == 0`: byte-prefix test
over the underlying character list. -/
def strStarts (p s : String) : Bool := p.data.isPrefixOf s.data

/-- The resolution chain of `VarGetStruct` (`GetData.cpp:802-921`), in source
order.  `InitWtIndex` is modelled like `Init` (the ragged-index loading it
additionally performs has no bearing on name dispatch). -/
def VarGetStructResolve (env : CFileInfo) (name : String) :
    Except String TVarMap :=
  if name = "sample.id" then checkSampleDim env (vmInit env name .sample1dFn)
  else if name = "position" then
    checkVariantDim env (vmInit env name .positionFn)
  else if name = "chromosome" then
    checkVariantDim env (vmInit env name .chromFn)
  else if name = "variant.id" ∨ name = "allele" ∨ name = "annotation/id" ∨
      name = "annotation/qual" ∨ name = "annotation/filter" then
    checkVariantDim env (vmInit env name .data1dFn)
  else if name = "genotype" then .ok (vmInit env "genotype/data" .genoFn)
  else if name = "@genotype" then
    checkVariantDim env (vmInit env "genotype/@data" .data1dFn)
  else if name = "phase" then
    let vm := vmInit env "phase/data" .phaseFn
    if vm.ndim < 2 ∨ vm.ndim > 3 ∨ vm.dims.headD 0 ≠ env.variantNum ∨
        vm.dims.getD 1 0 ≠ env.sampleNum then .error (dimErr vm.name)
    else .ok vm
  else if name = "$dosage" then .ok ⟨"", .dosageFn, 0, []⟩
  else if name = "$dosage_alt" then .ok ⟨"", .dosageAltFn, 0, []⟩
  else if name = "$num_allele" then
    checkVariantDim env (vmInit env "allele" .numAlleleFn)
  else if name = "$ref" then
    checkVariantDim env (vmInit env "allele" .refAlleleFn)
  else if name = "$alt" then
    checkVariantDim env (vmInit env "allele" .altAlleleFn)
  else if name = "$chrom_pos" then
    checkVariantDim env (vmInit env "chromosome" .chromPos2Fn)
  else if name = "$chrom_pos_allele" then
    checkVariantDim env (vmInit env "allele" .chromPosAlleleFn)
  else if name = "$sample_index" then .ok ⟨"", .sampleIdxFn, 0, []⟩
  else if name = "$variant_index" then .ok ⟨"", .variantIdxFn, 0, []⟩
  else if strStarts "annotation/info/" name then
    if ¬('@' ∈ name.data) then
      let vm := vmInit env name .infoFn
      if vm.ndim ≠ 1 ∧ vm.ndim ≠ 2 then .error (dimErr name)
      else .ok vm
    else checkVariantDim env (vmInit env name .data1dFn)
  else if strStarts "annotation/format/@" name then
    checkVariantDim env
      (vmInit env ("annotation/format/" ++ name.drop 19 ++ "/@data") .data1dFn)
  else if strStarts "annotation/format/" name then
    let vm := vmInit env (name ++ "/data") .formatFn
    if vm.ndim ≠ 2 then .error (dimErr vm.name) else .ok vm
  else if strStarts "sample.annotation/" name then
    checkSampleDim env (vmInit env name .sample1dFn)
  else if strStarts "$:" name then .ok ⟨name.drop 2, .envRFn, 0, []⟩
  else .error (invalidNameMsg name)

/-- `VarGetStruct` (`GetData.cpp:794-927`): per-session cache lookup, lazy
resolution, and caching of the resolved descriptor; a thrown error leaves the
cache untouched (`VarMap[name] = vm` is only reached on success). -/
def VarGetStruct (env : CFileInfo) (cache : List (String × TVarMap))
    (name : String) : List (String × TVarMap) × Except String TVarMap :=
  match cache.lookup name with
  | some vm => (cache, .ok vm)
  | none =>
    match VarGetStructResolve env name with
    | .ok vm => (cache ++ [(name, vm)], .ok vm)
    | .error e => (cache, .error e)

/-- The name classes enumerated by the claim (spec §4.4): the fixed
identifiers, `genotype`, `phase`, the `$`-prefixed derived scalars, the
three prefix families, and `$:`-prefixed environment names. -/
def claimRecognized (name : String) : Bool :=
  name == "sample.id" || name == "position" || name == "chromosome" ||
  name == "variant.id" || name == "allele" || name == "annotation/id" ||
  name == "annotation/qual" || name == "annotation/filter" ||
  name == "genotype" || name == "phase" ||
  name == "$dosage" || name == "$dosage_alt" || name == "$num_allele" ||
  name == "$ref" || name == "$alt" || name == "$chrom_pos" ||
  name == "$chrom_pos_allele" || name == "$sample_index" ||
  name == "$variant_index" ||
  strStarts "annotation/info/" name ||
  strStarts "annotation/format/" name ||
  strStarts "sample.annotation/" name ||
  strStarts "$:" name

/-- The amended class list: the resolver also accepts the internal genotype
length-index name `"@genotype"`. -/
def amendedRecognized (name : String) : Bool :=
  claimRecognized name || name == "@genotype"

/-- A small concrete file: two samples, three variants, a 1-D
`genotype/@data` node of extent 3. -/
def envGenoIdx : CFileInfo :=
  ⟨2, 3, fun p => if p = "genotype/@data" then [3] else []⟩

/-- Counterexample to C9 as stated: the column name `"@genotype"` matches
none of the claim's enumerated name classes, yet resolution succeeds (it is
the genotype plane-count index, `GetData.cpp:823-826`) and the descriptor is
cached. -/
theorem varGetStruct_invalid_name_cex :
    claimRecognized "@genotype" = false ∧
    VarGetStruct envGenoIdx [] "@genotype" =
      ([("@genotype", ⟨"genotype/@data", .data1dFn, 1, [3]⟩)],
        .ok ⟨"genotype/@data", .data1dFn, 1, [3]⟩) := by
  constructor
  · decide
  · rfl

theorem isPrefixOf_append_true {a : Type} [BEq a] :
    ∀ (p t s : List a), (p ++ t).isPrefixOf s = true →
      p.isPrefixOf s = true := by
  intro p
  induction p with
  | nil => intro t s _; cases s <;> rfl
  | cons x p' ih =>
    intro t s h
    cases s with
    | nil => simp [List.isPrefixOf] at h
    | cons b s' =>
      simp only [List.cons_append, List.isPrefixOf, Bool.and_eq_true] at h ⊢
      exact ⟨h.1, ih t s' h.2⟩

theorem strStarts_format_at (name : String)
    (h : strStarts "annotation/format/" name = false) :
    strStarts "annotation/format/@" name = false := by
  cases hq : strStarts "annotation/format/@" name
  · rfl
  · exfalso
    unfold strStarts at h hq
    have hsplit : ("annotation/format/@").data =
        ("annotation/format/").data ++ ['@'] := rfl
    rw [hsplit] at hq
    rw [isPrefixOf_append_true _ _ _ hq] at h
    exact absurd h (by simp)

/-- **C9** (amended): for every column name outside the recognized classes
(the fixed identifiers, `genotype`, its length-index companion `@genotype`,
`phase`, the `$`-prefixed derived scalars, `annotation/info/*`,
`annotation/format/*`, `sample.annotation/*`, and `$:`-prefixed environment
names), and not already cached, `VarGetStruct` fails with the invalid-name
error enumerating the accepted syntaxes and adds no descriptor to the
per-session cache. -/
theorem varGetStruct_invalid_name (env : CFileInfo)
    (cache : List (String × TVarMap)) (name : String)
    (hnc : cache.lookup name = none)
    (h : amendedRecognized name = false) :
    VarGetStruct env cache name = (cache, .error (invalidNameMsg name)) := by
  have hres : VarGetStructResolve env name = .error (invalidNameMsg name) := by
    simp only [amendedRecognized, claimRecognized, Bool.or_eq_false_iff] at h
    obtain ⟨⟨⟨⟨⟨⟨⟨⟨⟨⟨⟨⟨⟨⟨⟨⟨⟨⟨⟨⟨⟨⟨⟨h1, h2⟩, h3⟩, h4⟩, h5⟩, h6⟩, h7⟩, h8⟩, h9⟩, h10⟩, h11⟩, h12⟩, h13⟩, h14⟩, h15⟩, h16⟩, h17⟩, h18⟩, h19⟩, h20⟩, h21⟩, h22⟩, h23⟩, h24⟩ := h
    unfold VarGetStructResolve
    rw [if_neg (ne_of_beq_false h1), if_neg (ne_of_beq_false h2),
      if_neg (ne_of_beq_false h3),
      if_neg (show ¬(name = "variant.id" ∨ name = "allele" ∨
          name = "annotation/id" ∨ name = "annotation/qual" ∨
          name = "annotation/filter") from by
        rintro (hc | hc | hc | hc | hc)
        exacts [absurd hc (ne_of_beq_false h4), absurd hc (ne_of_beq_false h5),
          absurd hc (ne_of_beq_false h6), absurd hc (ne_of_beq_false h7),
          absurd hc (ne_of_beq_false h8)]),
      if_neg (ne_of_beq_false h9), if_neg (ne_of_beq_false h24),
      if_neg (ne_of_beq_false h10), if_neg (ne_of_beq_false h11),
      if_neg (ne_of_beq_false h12), if_neg (ne_of_beq_false h13),
      if_neg (ne_of_beq_false h14), if_neg (ne_of_beq_false h15),
      if_neg (ne_of_beq_false h16), if_neg (ne_of_beq_false h17),
      if_neg (ne_of_beq_false h18), if_neg (ne_of_beq_false h19),
      if_neg (show ¬(strStarts "annotation/info/" name = true) from by
        simp [h20]),
      if_neg (show ¬(strStarts "annotation/format/@" name = true) from by
        simp [strStarts_format_at name h21]),
      if_neg (show ¬(strStarts "annotation/format/" name = true) from by
        simp [h21]),
      if_neg (show ¬(strStarts "sample.annotation/" name = true) from by
        simp [h22]),
      if_neg (show ¬(strStarts "$:" name = true) from by simp [h23])]
  simp [VarGetStruct, hnc, hres]

/-- Witness for C9 at the unknown name `"foo"` and an empty cache. -/
theorem varGetStruct_invalid_name_witness :
    ((List.lookup "foo" ([] : List (String × TVarMap)) = none) ∧
      amendedRecognized "foo" = false) ∧
    VarGetStruct envGenoIdx [] "foo" =
      ([], .error (invalidNameMsg "foo")) :=
  ⟨⟨rfl, by decide⟩,
    varGetStruct_invalid_name envGenoIdx [] "foo" rfl (by decide)⟩

-- ===========================================================
-- get_chrom_pos2: the $chrom_pos derived column (GetData.cpp:352-391)
-- ===========================================================

/-- `snprintf(p1, …, "%s:%d", chr, pos)`. -/
def renderCP (chr : String) (pos : Int) : String :=
  chr ++ ":" ++ toString pos

/-- The loop of `get_chrom_pos2` (`GetData.cpp:368-387`) over the remaining
chromosome, position and selection lists: `prev` is the buffer the fresh
text is `strcmp`ed against (the base text of the current run — the buffers
are *not* swapped on a duplicate), `dup` the running duplicate counter. -/
def chromPosLoop (prev : String) (dup : Nat) :
    List String → List Int → List Bool → List String
  | chr :: cs, p :: ps, b :: bs =>
    if b then
      let cur := renderCP chr p
      if cur = prev then
        (cur ++ "_" ++ toString (dup + 1)) :: chromPosLoop prev (dup + 1) cs ps bs
      else cur :: chromPosLoop cur 0 cs ps bs
    else chromPosLoop prev dup cs ps bs
  | _, _, _ => []

/-- `get_chrom_pos2` (`GetData.cpp:352-391`): `buf2` starts zeroed (the empty
string) and `dup` at 0. -/
def get_chrom_pos2 (chrom : List String) (pos : List Int) (sel : List Bool) :
    List String :=
  chromPosLoop "" 0 chrom pos sel

/-- The rendered texts of the selected variants, in selection order. -/
def selTexts : List String → List Int → List Bool → List String
  | chr :: cs, p :: ps, b :: bs =>
    if b then renderCP chr p :: selTexts cs ps bs else selTexts cs ps bs
  | _, _, _ => []

/-- Spec side, inside a run: `base` is the run's text, `k` the 1-based number
the next duplicate would receive; a text change starts a new run. -/
def specCPgo (base : String) (k : Nat) : List String → List String
  | [] => []
  | t :: ts =>
    if t = base then (t ++ "_" ++ toString k) :: specCPgo base (k + 1) ts
    else t :: specCPgo t 1 ts

/-- Spec side: the first variant of each run of identical texts is emitted
plainly, the `j`-th subsequent duplicate as `text_j`, and the counter resets
whenever the text changes. -/
def specCP : List String → List String
  | [] => []
  | t :: ts => t :: specCPgo t 1 ts

/-- The loop of `get_chrom_pos2` expressed over the rendered selected texts
only (the unselected entries merely skip). -/
def cpTexts (prev : String) (dup : Nat) : List String → List String
  | [] => []
  | t :: ts =>
    if t = prev then (t ++ "_" ++ toString (dup + 1)) :: cpTexts prev (dup + 1) ts
    else t :: cpTexts t 0 ts

theorem chromPosLoop_selTexts :
    ∀ (cs : List String) (ps : List Int) (bs : List Bool)
      (prev : String) (dup : Nat),
    chromPosLoop prev dup cs ps bs = cpTexts prev dup (selTexts cs ps bs) := by
  intro cs
  induction cs with
  | nil =>
    intro ps bs prev dup
    cases ps <;> cases bs <;> rfl
  | cons chr cs' ih =>
    intro ps bs prev dup
    match ps, bs with
    | [], [] => rfl
    | [], _ :: _ => rfl
    | _ :: _, [] => rfl
    | p :: ps', b :: bs' =>
      cases b with
      | false =>
        show chromPosLoop prev dup (chr :: cs') (p :: ps') (false :: bs') = _
        rw [chromPosLoop]
        simp only [if_neg (by simp : ¬(false = true))]
        exact ih ps' bs' prev dup
      | true =>
        show chromPosLoop prev dup (chr :: cs') (p :: ps') (true :: bs') = _
        rw [chromPosLoop]
        simp only [if_pos rfl]
        show _ = cpTexts prev dup (renderCP chr p :: selTexts cs' ps' bs')
        rw [cpTexts]
        by_cases hc : renderCP chr p = prev
        · rw [if_pos hc, if_pos hc, ih ps' bs' prev (dup + 1)]
          simp
        · rw [if_neg hc, if_neg hc, ih ps' bs' (renderCP chr p) 0]
          simp

theorem cpTexts_specCPgo : ∀ (ts : List String) (base : String) (dup : Nat),
    cpTexts base dup ts = specCPgo base (dup + 1) ts := by
  intro ts
  induction ts with
  | nil => intro base dup; rfl
  | cons t ts' ih =>
    intro base dup
    rw [cpTexts, specCPgo]
    by_cases hc : t = base
    · rw [if_pos hc, if_pos hc, ih base (dup + 1)]
    · rw [if_neg hc, if_neg hc, ih t 0]

theorem renderCP_ne_empty (chr : String) (p : Int) : renderCP chr p ≠ "" := by
  intro h
  have hlen := congrArg String.length h
  unfold renderCP at hlen
  rw [String.length_append, String.length_append] at hlen
  have h1 : (":" : String).length = 1 := rfl
  have h0 : ("" : String).length = 0 := rfl
  rw [h1, h0] at hlen
  omega

theorem selTexts_ne_empty : ∀ (cs : List String) (ps : List Int)
    (bs : List Bool), ∀ t ∈ selTexts cs ps bs, t ≠ "" := by
  intro cs
  induction cs with
  | nil =>
    intro ps bs t ht
    cases ps <;> cases bs <;> simp [selTexts] at ht
  | cons chr cs' ih =>
    intro ps bs t ht
    match ps, bs with
    | [], [] => simp [selTexts] at ht
    | [], _ :: _ => simp [selTexts] at ht
    | _ :: _, [] => simp [selTexts] at ht
    | p :: ps', b :: bs' =>
      cases b with
      | false => exact ih ps' bs' t ht
      | true =>
        rcases List.mem_cons.mp ht with rfl | ht'
        · exact renderCP_ne_empty chr p
        · exact ih ps' bs' t ht'

/-- **C10**: for any selection, the derived column `$chrom_pos` returns one
string per selected variant in selection order: the first variant of a run
of consecutive selected variants whose rendered `chromosome:position` text
is identical is emitted as `chrom:pos`, and the `k`-th subsequent duplicate
within that run is emitted as `chrom:pos_k` for `k = 1, 2, …`, with the
duplicate counter resetting to zero whenever the text changes. -/
theorem get_chrom_pos2_runs (chrom : List String) (pos : List Int)
    (sel : List Bool) :
    get_chrom_pos2 chrom pos sel = specCP (selTexts chrom pos sel) ∧
    (get_chrom_pos2 chrom pos sel).length =
      (selTexts chrom pos sel).length := by
  have hmain : get_chrom_pos2 chrom pos sel =
      specCP (selTexts chrom pos sel) := by
    unfold get_chrom_pos2
    rw [chromPosLoop_selTexts chrom pos sel "" 0]
    cases hT : selTexts chrom pos sel with
    | nil => rfl
    | cons t ts =>
      have hne : t ≠ "" :=
        selTexts_ne_empty chrom pos sel t (hT ▸ List.mem_cons_self t ts)
      show cpTexts "" 0 (t :: ts) = specCP (t :: ts)
      rw [cpTexts, if_neg hne, specCP, cpTexts_specCPgo ts t 0]
  refine ⟨hmain, hmain ▸ ?_⟩
  have hgo : ∀ (T : List String) (base : String) (k : Nat),
      (specCPgo base k T).length = T.length := by
    intro T
    induction T with
    | nil => intro base k; rfl
    | cons t ts ih =>
      intro base k
      rw [specCPgo]
      by_cases hc : t = base
      · rw [if_pos hc]
        simp [ih]
      · rw [if_neg hc]
        simp [ih]
  cases hT : selTexts chrom pos sel with
  | nil => rfl
  | cons t ts => simp [specCP, hgo]

end SeqArray
